import Mathlib

/-!
# Lock-boundary search of `lo_tune_benchmarking.cpp`

A shallow embedding of `UHD_SAFE_MAIN` of `src/lo_tune_benchmarking.cpp`.

* The C++ `double`s (`offset`, `resolution`, the frequencies) are IEEE 754
  binary64 values, `Dbl`: a finite value is given by the rational it denotes,
  and every arithmetic result is rounded to the nearest binary64 value, ties
  to even (`Dbl.ofRat`), with overflow to the infinities. The two zeros are
  not told apart; they compare alike and no quotient is formed.
  A decimal literal or command line value denotes the rounding of its
  rational value.
* The USRP device is an oracle: the answer to the `n`-th call of
  `get_rx_sensor("lo_locked", 0)` is `dev.loLocked n`, where `none` stands for
  a call that raises an exception.
* The asynchronous `stop_signal_called` flag is an oracle as well: the value
  read by the `i`-th execution of the test on line 135 is `stop i`.
* The control flow of the `while (lock)` loop (lines 133-188) is a small-step
  machine with two loop heads, `Pc.top` (line 133) and `Pc.settle` (line 159).
  Device time stamps (`get_time_now`) are not modelled, and device calls other
  than the `lo_locked` sensor call are taken to return normally.
-/

namespace LoTuneBenchmarking

/-- IEEE 754 binary64 values; a finite one is given by the rational it denotes. -/
inductive Dbl
  | fin (q : ℚ)
  | pinf
  | ninf
  | nan
deriving DecidableEq, Repr

/-- The power `2 ^ e` as a rational. -/
def pow2 : Int → ℚ
  | Int.ofNat n => ((2 ^ n : Nat) : ℚ)
  | Int.negSucc n => 1 / ((2 ^ (n + 1) : Nat) : ℚ)

/-- Binary logarithm rounded down, by repeated halving (`fuel` bounds the depth). -/
def log2Aux : Nat → Nat → Nat
  | 0, _ => 0
  | fuel + 1, n => if 2 ≤ n then log2Aux fuel (n / 2) + 1 else 0

/-- Binary logarithm of a natural number, rounded down. -/
def natLog2 (n : Nat) : Nat := log2Aux n n

/-- The binary exponent of a positive rational `x`: `2 ^ e ≤ x < 2 ^ (e + 1)`. -/
def ilog2 (x : ℚ) : Int :=
  let e0 : Int := (natLog2 x.num.natAbs : Int) - (natLog2 x.den : Int)
  if pow2 e0 ≤ x then e0 else e0 - 1

/-- Rounding to the nearest integer, ties to the even one. -/
def roundEven (y : ℚ) : Int :=
  if y - (⌊y⌋ : ℚ) < 1 / 2 then ⌊y⌋
  else if 1 / 2 < y - (⌊y⌋ : ℚ) then ⌊y⌋ + 1
  else if ⌊y⌋ % 2 = 0 then ⌊y⌋ else ⌊y⌋ + 1

/-- Rounding of a rational to binary64, to nearest, ties to even: 53
significant bits, least exponent -1022 (subnormals are multiples of
`2 ^ -1074`), and a rounded magnitude of `2 ^ 1024` or more gives an infinity. -/
def Dbl.ofRat (x : ℚ) : Dbl :=
  if x = 0 then Dbl.fin 0
  else
    let q := pow2 (max (ilog2 |x|) (-1022) - 52)
    let y := (roundEven (x / q) : ℚ) * q
    if pow2 1024 ≤ |y| then (if 0 < x then Dbl.pinf else Dbl.ninf) else Dbl.fin y

/-- The binary64 difference `a - b`. -/
def Dbl.sub : Dbl → Dbl → Dbl
  | Dbl.fin a, Dbl.fin b => Dbl.ofRat (a - b)
  | Dbl.fin _, Dbl.pinf => Dbl.ninf
  | Dbl.fin _, Dbl.ninf => Dbl.pinf
  | Dbl.pinf, Dbl.fin _ => Dbl.pinf
  | Dbl.pinf, Dbl.ninf => Dbl.pinf
  | Dbl.ninf, Dbl.fin _ => Dbl.ninf
  | Dbl.ninf, Dbl.pinf => Dbl.ninf
  | _, _ => Dbl.nan

/-- The binary64 sum `a + b`. -/
def Dbl.add : Dbl → Dbl → Dbl
  | Dbl.fin a, Dbl.fin b => Dbl.ofRat (a + b)
  | Dbl.fin _, Dbl.pinf => Dbl.pinf
  | Dbl.fin _, Dbl.ninf => Dbl.ninf
  | Dbl.pinf, Dbl.fin _ => Dbl.pinf
  | Dbl.pinf, Dbl.pinf => Dbl.pinf
  | Dbl.ninf, Dbl.fin _ => Dbl.ninf
  | Dbl.ninf, Dbl.ninf => Dbl.ninf
  | _, _ => Dbl.nan

/-- The binary64 comparison `a < b`; false when either side is a NaN. -/
def Dbl.lt : Dbl → Dbl → Bool
  | Dbl.fin a, Dbl.fin b => decide (a < b)
  | Dbl.fin _, Dbl.pinf => true
  | Dbl.ninf, Dbl.fin _ => true
  | Dbl.ninf, Dbl.pinf => true
  | _, _ => false

/-- The binary64 comparison `a <= b`; false when either side is a NaN. -/
def Dbl.le : Dbl → Dbl → Bool
  | Dbl.fin a, Dbl.fin b => decide (a ≤ b)
  | Dbl.fin _, Dbl.pinf => true
  | Dbl.ninf, Dbl.fin _ => true
  | Dbl.ninf, Dbl.pinf => true
  | Dbl.pinf, Dbl.pinf => true
  | Dbl.ninf, Dbl.ninf => true
  | _, _ => false

/-- The ways in which `UHD_SAFE_MAIN` stops running. -/
inductive Exit
  /-- `return ~0` on line 59. -/
  | help
  /-- One of the `UHD_ASSERT_THROW`s on lines 104, 113, 121 failed. -/
  | assertFailed
  /-- A call of `get_rx_sensor("lo_locked", 0)` raised. -/
  | sensorThrew
  /-- The condition of `while (lock)` on line 133 was false. -/
  | loopCond
  /-- The `break` on line 136. -/
  | stopped
  /-- The `goto done_loop` on line 184. -/
  | underflow
deriving DecidableEq, Repr

/-- Program points at which the machine rests. -/
inductive Pc
  /-- Head of `while (lock)`, line 133. -/
  | top
  /-- Head of `while (!lock)`, line 159. -/
  | settle
  /-- The program has stopped. -/
  | exited (how : Exit)
deriving DecidableEq, Repr

/-- Device commands and console lines in the order they are issued. -/
inductive Event
  /-- Lines 101-104: the initial `lo_locked` check and its reading. -/
  | rxCheck (locked : Bool)
  /-- Lines 110-113 and 118-121: a motherboard sensor check and its reading. -/
  | mboardCheck (name : String) (locked : Bool)
  /-- Lines 140-144: timed retune to the given frequency. -/
  | retune (freq : Dbl)
  /-- Lines 147-150: the `lo_locked` query `offset` seconds after the retune. -/
  | probe (offset : Dbl) (result : Option Bool)
  /-- Lines 153-156: `clear_command_time` and retune back to the given frequency. -/
  | reset (freq : Dbl)
  /-- Line 160: one `lo_locked` query of the settle loop. -/
  | settle (result : Option Bool)
  /-- Line 176: the line "Hop from ... to ... took ... seconds!". -/
  | took (seconds : Dbl)
  /-- Line 183: the line "Device did not report failure to lock LO.". -/
  | noFailure
  /-- Line 193: the line "Done!". -/
  | done
deriving DecidableEq, Repr

/-- The parsed command line (lines 41-54), as far as it steers the program. -/
structure Config where
  help : Bool
  freq : Dbl
  resolution : Dbl
  ref : String

/-- The device as seen through the calls the program makes. -/
structure Device where
  rxSensorNames : List String
  mboardSensorNames : List String
  loLocked : Nat → Option Bool
  mimoLocked : Bool
  refLocked : Bool

/-- Everything outside the program: options, device, and the stop flag. -/
structure Env where
  cfg : Config
  dev : Device
  stop : Nat → Bool

/-- The program variables of the loop, with two counters that index the
oracles (`queries`: `lo_locked` calls made so far, `checks`: readings of the
stop flag so far) and the events issued so far. -/
structure State where
  offset : Dbl
  lock : Bool
  queries : Nat
  checks : Nat
  trace : List Event
  pc : Pc

/-- Line 36: `double offset = 0.000500`. -/
def start_offset : Dbl := Dbl.ofRat (5 / 10000)

/-- Line 131: `double next_freq = 5000000000`. -/
def next_freq : Dbl := Dbl.ofRat 5000000000

/-- Line 47: the default value of `--resolution`. -/
def default_resolution : Dbl := Dbl.ofRat (1 / 100000)

/-- The state on reaching line 133 for the first time, for a given initial
`offset`; line 128 sets `lock = true`. -/
def loopEntry (startOffset : Dbl) (queries : Nat) (trace : List Event) : State :=
  { offset := startOffset, lock := true, queries := queries, checks := 0,
    trace := trace, pc := Pc.top }

/-- Lines 139-156: timed retune, probe of `lo_locked`, reset to `last_freq`
(which is `freq`, line 130). A raising sensor call leaves the loop body. -/
def probePhase (env : Env) (st : State) : State :=
  match env.dev.loLocked st.queries with
  | none =>
    { st with
      queries := st.queries + 1
      trace := st.trace ++ [Event.retune next_freq, Event.probe st.offset none]
      pc := Pc.exited Exit.sensorThrew }
  | some b =>
    { st with
      lock := b
      queries := st.queries + 1
      trace := st.trace ++
        [Event.retune next_freq, Event.probe st.offset (some b), Event.reset env.cfg.freq]
      pc := Pc.settle }

/-- Lines 163-187: the report `if(!lock)`, the decrement `offset -= resolution`
and the underflow test `offset < 0`, all in binary64; on underflow control goes
to `done_loop` (lines 190-194). -/
def reportPhase (env : Env) (st : State) : State :=
  let tr := if !st.lock then
      st.trace ++ [Event.took (Dbl.add st.offset env.cfg.resolution)]
    else st.trace
  let off := Dbl.sub st.offset env.cfg.resolution
  if Dbl.lt off (Dbl.fin 0) then
    { st with offset := off, trace := tr ++ [Event.noFailure, Event.done],
              pc := Pc.exited Exit.underflow }
  else
    { st with offset := off, trace := tr, pc := Pc.top }

/-- One step of the loop: from line 133 to line 159, one turn of the settle
loop, or from the end of the settle loop back to line 133 (or out). -/
def step (env : Env) (st : State) : State :=
  match st.pc with
  | Pc.top =>
    if st.lock then
      if env.stop st.checks then
        { st with checks := st.checks + 1, trace := st.trace ++ [Event.done],
                  pc := Pc.exited Exit.stopped }
      else
        probePhase env { st with checks := st.checks + 1 }
    else
      { st with trace := st.trace ++ [Event.done], pc := Pc.exited Exit.loopCond }
  | Pc.settle =>
    if !st.lock then
      match env.dev.loLocked st.queries with
      | none =>
        { st with queries := st.queries + 1, trace := st.trace ++ [Event.settle none],
                  pc := Pc.exited Exit.sensorThrew }
      | some b =>
        { st with lock := b, queries := st.queries + 1,
                  trace := st.trace ++ [Event.settle (some b)] }
    else
      reportPhase env st
  | Pc.exited _ => st

/-- The state after `n` steps. -/
def run (env : Env) : Nat → State → State
  | 0, st => st
  | n + 1, st => run env n (step env st)

/-- Lines 29-131: option handling and the lock checks before the loop. The
result is the state at line 133, or a stopped state. -/
def UHD_SAFE_MAIN (cfg : Config) (dev : Device) : State :=
  let st0 := loopEntry start_offset 0 []
  if cfg.help then { st0 with pc := Pc.exited Exit.help }
  else
    let st1 : State :=
      if "lo_locked" ∈ dev.rxSensorNames then
        match dev.loLocked 0 with
        | none => { st0 with queries := 1, pc := Pc.exited Exit.sensorThrew }
        | some b =>
          { st0 with queries := 1, trace := [Event.rxCheck b],
                     pc := if b then Pc.top else Pc.exited Exit.assertFailed }
      else st0
    let st2 : State :=
      if st1.pc = Pc.top ∧ cfg.ref = "mimo" ∧ "mimo_locked" ∈ dev.mboardSensorNames then
        { st1 with trace := st1.trace ++ [Event.mboardCheck "mimo_locked" dev.mimoLocked],
                   pc := if dev.mimoLocked then Pc.top else Pc.exited Exit.assertFailed }
      else st1
    if st2.pc = Pc.top ∧ cfg.ref = "external" ∧ "ref_locked" ∈ dev.mboardSensorNames then
      { st2 with trace := st2.trace ++ [Event.mboardCheck "ref_locked" dev.refLocked],
                 pc := if dev.refLocked then Pc.top else Pc.exited Exit.assertFailed }
    else st2

/-- The whole program after `n` steps of the loop. -/
def program (cfg : Config) (dev : Device) (stop : Nat → Bool) (n : Nat) : State :=
  run { cfg := cfg, dev := dev, stop := stop } n (UHD_SAFE_MAIN cfg dev)

/-- The value returned by `UHD_SAFE_MAIN`: `~0` on line 59, `EXIT_SUCCESS` on
line 194; `none` when an exception leaves the function body. -/
def exitCode : Exit → Option Int
  | Exit.help => some (-1)
  | Exit.loopCond => some 0
  | Exit.stopped => some 0
  | Exit.underflow => some 0
  | Exit.assertFailed => none
  | Exit.sensorThrew => none

/-- The offsets of the probes in a trace, in order. -/
def probeOffsets : List Event → List Dbl
  | [] => []
  | Event.probe o _ :: es => o :: probeOffsets es
  | _ :: es => probeOffsets es

/-- The reported boundary values (lines "... took ... seconds!") in a trace. -/
def tookValues : List Event → List Dbl
  | [] => []
  | Event.took v :: es => v :: tookValues es
  | _ :: es => tookValues es

/-- Number of resets to baseline in a trace. -/
def resetCount : List Event → Nat
  | [] => 0
  | Event.reset _ :: es => resetCount es + 1
  | _ :: es => resetCount es

/-- The default options: no `--help`, 500 MHz, 10 us resolution, internal reference. -/
def defaultConfig : Config :=
  { help := false, freq := Dbl.ofRat 500000000, resolution := default_resolution,
    ref := "internal" }

/-- A device with the `lo_locked` sensor whose `n`-th reading is `f n`. -/
def deviceOf (f : Nat → Bool) : Device :=
  { rxSensorNames := ["lo_locked"], mboardSensorNames := [],
    loLocked := fun n => some (f n), mimoLocked := true, refLocked := true }

/-- The stop flag that is never set. -/
def neverStop : Nat → Bool := fun _ => false

/-- The environment in which every `lo_locked` reading is `true`. -/
def lockedEnv (env : Env) : Env :=
  { env with dev := { env.dev with loLocked := fun _ => some true } }

/-- Every `lo_locked` call returns a reading. -/
def Answers (dev : Device) : Prop := ∀ n, ∃ b, dev.loLocked n = some b

/-- After any number of calls, some later `lo_locked` call reads `true`:
every settle wait finishes. -/
def Settles (dev : Device) : Prop := ∀ q, ∃ d, dev.loLocked (q + d) = some true

/-- At the head of `while (lock)` the variable `lock` is `true`, and the loop
has not been left through its condition. -/
def Sound (st : State) : Prop :=
  (st.pc = Pc.top → st.lock = true) ∧ st.pc ≠ Pc.exited Exit.loopCond

/-- A device whose `lo_locked` sensor always reads `true`. -/
def lockedDevice : Device := deviceOf (fun _ => true)

/-- A device whose sensor reads `true` at the initial check and at every
second call after it: each probe reads unlocked, each settle wait ends at once. -/
def unlockedProbeDevice : Device := deviceOf (fun n => n % 2 == 0)

/-- A device that is locked for the first 30 probes (offsets above 0.0002)
and from then on unlocked at each probe, locked again at the next call. -/
def boundaryDevice : Device := deviceOf (fun n => if n ≤ 30 then true else n % 2 == 0)

/-- A device that reads locked at the initial check and never again. -/
def stuckDevice : Device := deviceOf (fun n => n == 0)

/-- A device without any sensor; every sensor call raises. -/
def bareDevice : Device :=
  { rxSensorNames := [], mboardSensorNames := [], loLocked := fun _ => none,
    mimoLocked := true, refLocked := true }

/-- The default options on a given device, never interrupted. -/
def envOf (dev : Device) : Env := { cfg := defaultConfig, dev := dev, stop := neverStop }

/-- The probes in a trace with their readings, in order. -/
def probeReadings : List Event → List (Dbl × Option Bool)
  | [] => []
  | Event.probe o b :: es => (o, b) :: probeReadings es
  | _ :: es => probeReadings es

/-- The default options with `--resolution r`, for a decimal value `r`. -/
def withResolution (r : ℚ) : Config := { defaultConfig with resolution := Dbl.ofRat r }

/-- The value of `offset` after `k` executions of `offset -= resolution`
(line 180), starting from `s`. -/
def offsetAfter (s r : Dbl) : Nat → Dbl
  | 0 => s
  | k + 1 => Dbl.sub (offsetAfter s r k) r

/-- The stop flag that is set from the start. -/
def alwaysStop : Nat → Bool := fun _ => true

/-- The options `--resolution r` on a given device, never interrupted. -/
def envWith (r : ℚ) (dev : Device) : Env :=
  { cfg := withResolution r, dev := dev, stop := neverStop }

/-- The rational denoted by the binary64 value of the literal `0.000500`. -/
def startValue : ℚ := 1152921504606847 / 2305843009213693952

/-- The rational denoted by the binary64 value of the literal `0.00001`. -/
def defaultStepValue : ℚ := 5902958103587057 / 590295810358705651712

/-! ## Rounding to binary64 -/

theorem pow2_eq (e : Int) : pow2 e = (2 : ℚ) ^ e := by
  cases e with
  | ofNat n => simp [pow2]
  | negSucc n => simp [pow2, zpow_negSucc]

theorem pow2_pos (e : Int) : 0 < pow2 e := by
  rw [pow2_eq]; positivity

theorem pow2_add (a b : Int) : pow2 (a + b) = pow2 a * pow2 b := by
  simp only [pow2_eq]
  exact zpow_add₀ (by norm_num) a b

theorem pow2_neg_one : pow2 (-1) = 1 / 2 := by
  rw [pow2_eq]; norm_num

theorem pow2_le (a b : Int) (h : a ≤ b) : pow2 a ≤ pow2 b := by
  simp only [pow2_eq]
  exact zpow_le_zpow_right₀ (by norm_num) h

theorem log2Aux_spec (fuel : Nat) : ∀ n, n ≤ fuel → 1 ≤ n →
    2 ^ log2Aux fuel n ≤ n ∧ n < 2 ^ (log2Aux fuel n + 1) := by
  induction fuel with
  | zero => intro n h1 h2; omega
  | succ fuel ih =>
    intro n h1 h2
    by_cases h : 2 ≤ n
    · simp only [log2Aux, h, if_true]
      obtain ⟨a, b⟩ := ih (n / 2) (by omega) (by omega)
      rw [pow_succ, pow_succ]
      rw [pow_succ] at b
      constructor <;> omega
    · simp only [log2Aux, h, if_false]
      constructor <;> simp <;> omega

theorem natLog2_spec (n : Nat) (h : 1 ≤ n) :
    2 ^ natLog2 n ≤ n ∧ n < 2 ^ (natLog2 n + 1) :=
  log2Aux_spec n n le_rfl h

/-- The binary exponent brackets its argument. -/
theorem ilog2_spec (x : ℚ) (hx : 0 < x) :
    pow2 (ilog2 x) ≤ x ∧ x < pow2 (ilog2 x + 1) := by
  have hnum : 0 < x.num := Rat.num_pos.mpr hx
  have hn1 : 1 ≤ x.num.natAbs := by omega
  have hd1 : 1 ≤ x.den := x.den_pos
  obtain ⟨na, nb⟩ := natLog2_spec x.num.natAbs hn1
  obtain ⟨da, db⟩ := natLog2_spec x.den hd1
  have hxe : x = (x.num.natAbs : ℚ) / (x.den : ℚ) := by
    have h1 : ((x.num.natAbs : Int) : ℚ) = (x.num : ℚ) := by
      rw [Int.natAbs_of_nonneg hnum.le]
    have h2 : ((x.num.natAbs : Int) : ℚ) = ((x.num.natAbs : Nat) : ℚ) := Int.cast_natCast _
    rw [← h2, h1]
    exact (Rat.num_div_den x).symm
  have hdpos : (0 : ℚ) < (x.den : ℚ) := by exact_mod_cast hd1
  have naq : (2 : ℚ) ^ (natLog2 x.num.natAbs) ≤ (x.num.natAbs : ℚ) := by exact_mod_cast na
  have nbq : (x.num.natAbs : ℚ) < (2 : ℚ) ^ (natLog2 x.num.natAbs + 1) := by exact_mod_cast nb
  have daq : (2 : ℚ) ^ (natLog2 x.den) ≤ (x.den : ℚ) := by exact_mod_cast da
  have dbq : (x.den : ℚ) < (2 : ℚ) ^ (natLog2 x.den + 1) := by exact_mod_cast db
  have h2pos : ∀ k : Nat, (0 : ℚ) < (2 : ℚ) ^ k := fun k => by positivity
  have keyl : (2 : ℚ) ^ natLog2 x.num.natAbs / (2 : ℚ) ^ (natLog2 x.den + 1)
      ≤ (x.num.natAbs : ℚ) / (x.den : ℚ) := by
    rw [div_le_div_iff₀ (h2pos _) hdpos]
    calc (2 : ℚ) ^ natLog2 x.num.natAbs * (x.den : ℚ)
        ≤ (x.num.natAbs : ℚ) * (x.den : ℚ) := by
          exact mul_le_mul_of_nonneg_right naq hdpos.le
      _ ≤ (x.num.natAbs : ℚ) * (2 : ℚ) ^ (natLog2 x.den + 1) := by
          exact mul_le_mul_of_nonneg_left dbq.le (by positivity)
  have keyu : (x.num.natAbs : ℚ) / (x.den : ℚ)
      < (2 : ℚ) ^ (natLog2 x.num.natAbs + 1) / (2 : ℚ) ^ natLog2 x.den := by
    rw [div_lt_div_iff₀ hdpos (h2pos _)]
    calc (x.num.natAbs : ℚ) * (2 : ℚ) ^ natLog2 x.den
        < (2 : ℚ) ^ (natLog2 x.num.natAbs + 1) * (2 : ℚ) ^ natLog2 x.den := by
          exact mul_lt_mul_of_pos_right nbq (h2pos _)
      _ ≤ (2 : ℚ) ^ (natLog2 x.num.natAbs + 1) * (x.den : ℚ) := by
          exact mul_le_mul_of_nonneg_left daq (by positivity)
  have lower : pow2 ((natLog2 x.num.natAbs : Int) - (natLog2 x.den : Int) - 1) ≤ x := by
    rw [pow2_eq, sub_sub, zpow_sub₀ (by norm_num), zpow_natCast]
    have : ((natLog2 x.den : Int) + 1) = ((natLog2 x.den + 1 : Nat) : Int) := by push_cast; rfl
    rw [this, zpow_natCast]
    exact le_of_le_of_eq keyl hxe.symm
  have upper : x < pow2 ((natLog2 x.num.natAbs : Int) - (natLog2 x.den : Int) + 1) := by
    rw [pow2_eq, sub_add_eq_add_sub, zpow_sub₀ (by norm_num), zpow_natCast]
    have : ((natLog2 x.num.natAbs : Int) + 1) = ((natLog2 x.num.natAbs + 1 : Nat) : Int) := by
      push_cast; rfl
    rw [this, zpow_natCast]
    exact lt_of_eq_of_lt hxe keyu
  unfold ilog2
  simp only
  split_ifs with h
  · exact ⟨h, upper⟩
  · refine ⟨lower, ?_⟩
    rw [sub_add_cancel]
    exact lt_of_not_le h

/-- Rounding to the nearest integer moves by at most one half. -/
theorem roundEven_err (y : ℚ) : |(roundEven y : ℚ) - y| ≤ 1 / 2 := by
  have h1 : (⌊y⌋ : ℚ) ≤ y := Int.floor_le y
  have h2 : y < (⌊y⌋ : ℚ) + 1 := Int.lt_floor_add_one y
  unfold roundEven
  split_ifs with a b c
  · rw [abs_le]; constructor <;> linarith
  · push_cast; rw [abs_le]; constructor <;> linarith
  · have : y - (⌊y⌋ : ℚ) = 1 / 2 := le_antisymm (not_lt.mp b) (not_lt.mp a)
    rw [abs_le]; constructor <;> linarith
  · have : y - (⌊y⌋ : ℚ) = 1 / 2 := le_antisymm (not_lt.mp b) (not_lt.mp a)
    push_cast; rw [abs_le]; constructor <;> linarith

/-- Below `2 ^ 1023` in magnitude, rounding to binary64 gives a finite value
within relative error `2 ^ -53` (absolute error `2 ^ -1075` below `2 ^ -1022`). -/
theorem ofRat_close (x : ℚ) (hx : |x| < pow2 1023) :
    ∃ y, Dbl.ofRat x = Dbl.fin y ∧ |y - x| ≤ pow2 (-53) * max |x| (pow2 (-1022)) := by
  by_cases h0 : x = 0
  · refine ⟨0, by simp [Dbl.ofRat, h0], ?_⟩
    rw [h0]; simp
    exact mul_nonneg (pow2_pos _).le (le_max_of_le_right (pow2_pos _).le)
  · have hpos : 0 < |x| := abs_pos.mpr h0
    obtain ⟨hlo, -⟩ := ilog2_spec |x| hpos
    set e := max (ilog2 |x|) (-1022) with he
    set q := pow2 (e - 52) with hq
    have hqpos : 0 < q := pow2_pos _
    have hE : pow2 e ≤ max |x| (pow2 (-1022)) := by
      rcases le_total (ilog2 |x|) (-1022) with h | h
      · rw [he, max_eq_right h]; exact le_max_right _ _
      · rw [he, max_eq_left h]; exact le_max_of_le_left hlo
    have herr : |(roundEven (x / q) : ℚ) * q - x| ≤ pow2 (-53) * max |x| (pow2 (-1022)) := by
      have h1 : (roundEven (x / q) : ℚ) * q - x = ((roundEven (x / q) : ℚ) - x / q) * q := by
        field_simp
      rw [h1, abs_mul, abs_of_pos hqpos]
      have h2 := roundEven_err (x / q)
      have h3 : q = pow2 (-53) * (2 * pow2 e) := by
        rw [hq, show e - 52 = -53 + (1 + e) by ring, pow2_add, pow2_add]
        congr 2
      calc |(roundEven (x / q) : ℚ) - x / q| * q ≤ 1 / 2 * q :=
            mul_le_mul_of_nonneg_right h2 hqpos.le
        _ = pow2 (-53) * pow2 e := by rw [h3]; ring
        _ ≤ pow2 (-53) * max |x| (pow2 (-1022)) :=
            mul_le_mul_of_nonneg_left hE (pow2_pos _).le
    have hsmall : ¬ pow2 1024 ≤ |(roundEven (x / q) : ℚ) * q| := by
      intro hbig
      have hm : max |x| (pow2 (-1022)) ≤ pow2 1023 :=
        max_le hx.le (pow2_le _ _ (by norm_num))
      have h53 : pow2 (-53) ≤ 1 := by
        have := pow2_le (-53) 0 (by norm_num)
        simpa [pow2] using this
      have h4 : |(roundEven (x / q) : ℚ) * q| ≤ |x| + pow2 (-53) * max |x| (pow2 (-1022)) := by
        have := abs_sub_abs_le_abs_sub ((roundEven (x / q) : ℚ) * q) x
        linarith
      have h5 : pow2 (-53) * max |x| (pow2 (-1022)) ≤ pow2 1023 := by
        calc pow2 (-53) * max |x| (pow2 (-1022)) ≤ 1 * pow2 1023 :=
              mul_le_mul h53 hm (le_max_of_le_right (pow2_pos _).le) (by norm_num)
          _ = pow2 1023 := one_mul _
      have h6 : pow2 1024 = pow2 1023 + pow2 1023 := by
        rw [show (1024 : Int) = 1 + 1023 by norm_num, pow2_add]
        have : pow2 1 = 2 := by simp [pow2_eq]
        rw [this]; ring
      linarith
    refine ⟨(roundEven (x / q) : ℚ) * q, ?_, herr⟩
    simp only [Dbl.ofRat, h0, if_false]
    rw [← he, ← hq]
    simp only [hsmall, if_false]

/-! ## Traces -/

theorem probeOffsets_append (a b : List Event) :
    probeOffsets (a ++ b) = probeOffsets a ++ probeOffsets b := by
  induction a with
  | nil => rfl
  | cons e es ih => cases e <;> simp [probeOffsets, ih]

theorem tookValues_append (a b : List Event) :
    tookValues (a ++ b) = tookValues a ++ tookValues b := by
  induction a with
  | nil => rfl
  | cons e es ih => cases e <;> simp [tookValues, ih]

theorem resetCount_append (a b : List Event) :
    resetCount (a ++ b) = resetCount a + resetCount b := by
  induction a with
  | nil => simp [resetCount]
  | cons e es ih =>
    cases e <;> simp [resetCount, ih]
    omega

/-! ## Running -/

theorem run_add (env : Env) (m n : Nat) (st : State) :
    run env (m + n) st = run env n (run env m st) := by
  induction m generalizing st with
  | zero => simp [run]
  | succ m ih => rw [Nat.succ_add]; simp [run, ih]

theorem step_exited (env : Env) (st : State) (e : Exit) (h : st.pc = Pc.exited e) :
    step env st = st := by
  simp [step, h]

theorem run_exited (env : Env) (n : Nat) (st : State) (e : Exit) (h : st.pc = Pc.exited e) :
    run env n st = st := by
  induction n with
  | zero => rfl
  | succ n ih => simp [run, step_exited env st e h, ih]

theorem run_succ_last (env : Env) (n : Nat) (st : State) :
    run env (n + 1) st = step env (run env n st) := by
  rw [run_add]; rfl

/-! ## The cases of `step` -/

theorem step_top_stop (env : Env) (st : State) (hpc : st.pc = Pc.top) (hl : st.lock = true)
    (hs : env.stop st.checks = true) :
    step env st = { st with checks := st.checks + 1, trace := st.trace ++ [Event.done],
                            pc := Pc.exited Exit.stopped } := by
  simp [step, hpc, hl, hs]

theorem step_top_go (env : Env) (st : State) (hpc : st.pc = Pc.top) (hl : st.lock = true)
    (hs : env.stop st.checks = false) :
    step env st = probePhase env { st with checks := st.checks + 1 } := by
  simp [step, hpc, hl, hs]

theorem step_top_unlocked (env : Env) (st : State) (hpc : st.pc = Pc.top)
    (hl : st.lock = false) :
    step env st = { st with trace := st.trace ++ [Event.done],
                            pc := Pc.exited Exit.loopCond } := by
  simp [step, hpc, hl]

theorem step_settle_none (env : Env) (st : State) (hpc : st.pc = Pc.settle)
    (hl : st.lock = false) (hq : env.dev.loLocked st.queries = none) :
    step env st = { st with queries := st.queries + 1,
                            trace := st.trace ++ [Event.settle none],
                            pc := Pc.exited Exit.sensorThrew } := by
  simp [step, hpc, hl, hq]

theorem step_settle_some (env : Env) (st : State) (b : Bool) (hpc : st.pc = Pc.settle)
    (hl : st.lock = false) (hq : env.dev.loLocked st.queries = some b) :
    step env st = { st with lock := b, queries := st.queries + 1,
                            trace := st.trace ++ [Event.settle (some b)] } := by
  simp [step, hpc, hl, hq]

theorem step_settle_locked (env : Env) (st : State) (hpc : st.pc = Pc.settle)
    (hl : st.lock = true) :
    step env st = reportPhase env st := by
  simp [step, hpc, hl]

theorem probePhase_none (env : Env) (st : State) (hq : env.dev.loLocked st.queries = none) :
    probePhase env st =
      { st with queries := st.queries + 1,
                trace := st.trace ++ [Event.retune next_freq, Event.probe st.offset none],
                pc := Pc.exited Exit.sensorThrew } := by
  simp [probePhase, hq]

theorem probePhase_some (env : Env) (st : State) (b : Bool)
    (hq : env.dev.loLocked st.queries = some b) :
    probePhase env st =
      { st with lock := b, queries := st.queries + 1,
                trace := st.trace ++ [Event.retune next_freq, Event.probe st.offset (some b),
                                      Event.reset env.cfg.freq],
                pc := Pc.settle } := by
  simp [probePhase, hq]

theorem reportPhase_under (env : Env) (st : State) (hl : st.lock = true)
    (ho : Dbl.lt (Dbl.sub st.offset env.cfg.resolution) (Dbl.fin 0) = true) :
    reportPhase env st =
      { st with offset := Dbl.sub st.offset env.cfg.resolution,
                trace := st.trace ++ [Event.noFailure, Event.done],
                pc := Pc.exited Exit.underflow } := by
  simp [reportPhase, hl, ho]

theorem reportPhase_again (env : Env) (st : State) (hl : st.lock = true)
    (ho : Dbl.lt (Dbl.sub st.offset env.cfg.resolution) (Dbl.fin 0) = false) :
    reportPhase env st =
      { st with offset := Dbl.sub st.offset env.cfg.resolution, pc := Pc.top } := by
  simp [reportPhase, hl, ho]

/-- The five ways a step can go, by program point, `lock`, stop flag and reading. -/
theorem step_cases (env : Env) (st : State) :
    (∃ e, st.pc = Pc.exited e ∧ step env st = st) ∨
    (st.pc = Pc.top ∧ st.lock = false ∧
      step env st = { st with trace := st.trace ++ [Event.done],
                              pc := Pc.exited Exit.loopCond }) ∨
    (st.pc = Pc.top ∧ st.lock = true ∧ env.stop st.checks = true ∧
      step env st = { st with checks := st.checks + 1, trace := st.trace ++ [Event.done],
                              pc := Pc.exited Exit.stopped }) ∨
    (st.pc = Pc.top ∧ st.lock = true ∧ env.stop st.checks = false ∧
      env.dev.loLocked st.queries = none ∧
      step env st = { st with checks := st.checks + 1, queries := st.queries + 1,
                              trace := st.trace ++
                                [Event.retune next_freq, Event.probe st.offset none],
                              pc := Pc.exited Exit.sensorThrew }) ∨
    (∃ b, st.pc = Pc.top ∧ st.lock = true ∧ env.stop st.checks = false ∧
      env.dev.loLocked st.queries = some b ∧
      step env st = { st with checks := st.checks + 1, lock := b, queries := st.queries + 1,
                              trace := st.trace ++
                                [Event.retune next_freq, Event.probe st.offset (some b),
                                 Event.reset env.cfg.freq],
                              pc := Pc.settle }) ∨
    (st.pc = Pc.settle ∧ st.lock = false ∧ env.dev.loLocked st.queries = none ∧
      step env st = { st with queries := st.queries + 1,
                              trace := st.trace ++ [Event.settle none],
                              pc := Pc.exited Exit.sensorThrew }) ∨
    (∃ b, st.pc = Pc.settle ∧ st.lock = false ∧ env.dev.loLocked st.queries = some b ∧
      step env st = { st with lock := b, queries := st.queries + 1,
                              trace := st.trace ++ [Event.settle (some b)] }) ∨
    (st.pc = Pc.settle ∧ st.lock = true ∧ Dbl.lt (Dbl.sub st.offset env.cfg.resolution) (Dbl.fin 0) = true ∧
      step env st = { st with offset := Dbl.sub st.offset env.cfg.resolution,
                              trace := st.trace ++ [Event.noFailure, Event.done],
                              pc := Pc.exited Exit.underflow }) ∨
    (st.pc = Pc.settle ∧ st.lock = true ∧ Dbl.lt (Dbl.sub st.offset env.cfg.resolution) (Dbl.fin 0) = false ∧
      step env st = { st with offset := Dbl.sub st.offset env.cfg.resolution, pc := Pc.top }) := by
  obtain ⟨o, l, q, c, tr, pc⟩ := st
  cases pc with
  | exited e => simp [step]
  | top =>
    cases l with
    | false => simp [step]
    | true =>
      cases hs : env.stop c with
      | true => simp [step, hs]
      | false =>
        cases hq : env.dev.loLocked q with
        | none => simp [step, probePhase, hs, hq]
        | some b => simp [step, probePhase, hs, hq]
  | settle =>
    cases l with
    | false =>
      cases hq : env.dev.loLocked q with
      | none => simp [step, hq]
      | some b => simp [step, hq]
    | true =>
      cases ho : Dbl.lt (Dbl.sub o env.cfg.resolution) (Dbl.fin 0) with
      | true => simp [step, reportPhase, ho]
      | false => simp [step, reportPhase, ho]

/-! ## Invariants of the loop -/

/-- No step prints the "took" line. -/
theorem step_tookValues (env : Env) (st : State) :
    tookValues (step env st).trace = tookValues st.trace := by
  rcases step_cases env st with ⟨e, -, h⟩ | ⟨-, -, h⟩ | ⟨-, -, -, h⟩ | ⟨-, -, -, -, h⟩ |
    ⟨b, -, -, -, -, h⟩ | ⟨-, -, -, h⟩ | ⟨b, -, -, -, h⟩ | ⟨-, -, -, h⟩ | ⟨-, -, -, h⟩ <;>
  rw [h] <;> simp [tookValues_append, tookValues]

theorem run_tookValues (env : Env) (n : Nat) (st : State) :
    tookValues (run env n st).trace = tookValues st.trace := by
  induction n generalizing st with
  | zero => rfl
  | succ n ih => simp [run, ih, step_tookValues]

theorem step_sound (env : Env) (st : State) (h : Sound st) : Sound (step env st) := by
  obtain ⟨h1, h2⟩ := h
  rcases step_cases env st with ⟨e, -, h⟩ | ⟨hpc, hl, h⟩ | ⟨-, -, -, h⟩ | ⟨-, -, -, -, h⟩ |
    ⟨b, -, -, -, -, h⟩ | ⟨-, -, -, h⟩ | ⟨b, hpc, -, -, h⟩ | ⟨-, -, -, h⟩ | ⟨-, hl, -, h⟩
  · rw [h]; exact ⟨h1, h2⟩
  · rw [h1 hpc] at hl; cases hl
  · rw [h]; simp [Sound]
  · rw [h]; simp [Sound]
  · rw [h]; simp [Sound]
  · rw [h]; simp [Sound]
  · rw [h]; simp [Sound, hpc]
  · rw [h]; simp [Sound]
  · rw [h]; simp [Sound, hl]

theorem run_sound (env : Env) (n : Nat) (st : State) (h : Sound st) : Sound (run env n st) := by
  induction n generalizing st with
  | zero => exact h
  | succ n ih => exact ih _ (step_sound env st h)

theorem loopEntry_sound (s : Dbl) (q : Nat) (tr : List Event) : Sound (loopEntry s q tr) := by
  simp [Sound, loopEntry]

/-! ## The settle wait and one full iteration -/

theorem run_one (env : Env) (st : State) : run env 1 st = step env st := rfl

/-- A settle wait whose sensor reads `true` after `d` more calls comes to its
end, and changes neither `offset` nor the probes made. -/
theorem settle_finishes (env : Env) (hA : Answers env.dev) (d : Nat) :
    ∀ st : State, st.pc = Pc.settle → env.dev.loLocked (st.queries + d) = some true →
      ∃ m, (run env m st).pc = Pc.settle ∧ (run env m st).lock = true ∧
        (run env m st).offset = st.offset ∧ (run env m st).checks = st.checks ∧
        probeOffsets (run env m st).trace = probeOffsets st.trace := by
  induction d with
  | zero =>
    intro st hpc hq
    cases hl : st.lock with
    | true => exact ⟨0, hpc, hl, rfl, rfl, rfl⟩
    | false =>
      refine ⟨1, ?_⟩
      rw [run_one, step_settle_some env st true hpc hl hq]
      simp [hpc, probeOffsets_append, probeOffsets]
  | succ d ih =>
    intro st hpc hq
    cases hl : st.lock with
    | true => exact ⟨0, hpc, hl, rfl, rfl, rfl⟩
    | false =>
      obtain ⟨b, hb⟩ := hA st.queries
      have hstep := step_settle_some env st b hpc hl hb
      cases b with
      | true =>
        refine ⟨1, ?_⟩
        rw [run_one, hstep]
        simp [hpc, probeOffsets_append, probeOffsets]
      | false =>
        have hq2 : env.dev.loLocked ((step env st).queries + d) = some true := by
          rw [hstep]
          have : st.queries + 1 + d = st.queries + (d + 1) := by omega
          simpa [this] using hq
        have hpc2 : (step env st).pc = Pc.settle := by rw [hstep]; exact hpc
        obtain ⟨m, h1, h2, h3, h4, h5⟩ := ih (step env st) hpc2 hq2
        refine ⟨m + 1, ?_⟩
        have hrun : run env (m + 1) st = run env m (step env st) := rfl
        rw [hrun]
        refine ⟨h1, h2, ?_, ?_, ?_⟩
        · rw [h3, hstep]
        · rw [h4, hstep]
        · rw [h5, hstep]; simp [probeOffsets_append, probeOffsets]

/-- One full iteration from the loop head, when the stop flag is not set, the
sensor answers and the settle wait finishes. -/
theorem iteration (env : Env) (hA : Answers env.dev) (hS : Settles env.dev) (st : State)
    (hpc : st.pc = Pc.top) (hl : st.lock = true) (hs : env.stop st.checks = false) :
    ∃ n, (run env n st).checks = st.checks + 1 ∧
      (run env n st).offset = Dbl.sub st.offset env.cfg.resolution ∧
      (run env n st).lock = true ∧
      probeOffsets (run env n st).trace = probeOffsets st.trace ++ [st.offset] ∧
      (Dbl.lt (Dbl.sub st.offset env.cfg.resolution) (Dbl.fin 0) = true →
        (run env n st).pc = Pc.exited Exit.underflow ∧
        ∃ pre, (run env n st).trace = pre ++ [Event.noFailure, Event.done]) ∧
      (Dbl.lt (Dbl.sub st.offset env.cfg.resolution) (Dbl.fin 0) = false →
        (run env n st).pc = Pc.top) := by
  obtain ⟨b, hb⟩ := hA st.queries
  have h1 : step env st =
      { st with checks := st.checks + 1, lock := b, queries := st.queries + 1,
                trace := st.trace ++ [Event.retune next_freq, Event.probe st.offset (some b),
                                      Event.reset env.cfg.freq],
                pc := Pc.settle } := by
    rw [step_top_go env st hpc hl hs]
    exact probePhase_some env _ b hb
  obtain ⟨d, hd⟩ := hS (step env st).queries
  have hpc1 : (step env st).pc = Pc.settle := by rw [h1]
  obtain ⟨m, m1, m2, m3, m4, m5⟩ := settle_finishes env hA d (step env st) hpc1 hd
  refine ⟨(1 + m) + 1, ?_⟩
  have hrun : run env ((1 + m) + 1) st = step env (run env m (step env st)) := by
    rw [run_add, run_add, run_one, run_one]
  rw [hrun, step_settle_locked env _ m1 m2]
  have ho : (run env m (step env st)).offset = st.offset := by rw [m3, h1]
  have hc : (run env m (step env st)).checks = st.checks + 1 := by rw [m4, h1]
  have hp : probeOffsets (run env m (step env st)).trace
      = probeOffsets st.trace ++ [st.offset] := by
    rw [m5, h1]; simp [probeOffsets_append, probeOffsets]
  cases hu : Dbl.lt (Dbl.sub st.offset env.cfg.resolution) (Dbl.fin 0) with
  | true =>
    have hu2 : Dbl.lt (Dbl.sub (run env m (step env st)).offset env.cfg.resolution)
        (Dbl.fin 0) = true := by rw [ho]; exact hu
    rw [reportPhase_under env _ m2 hu2]
    refine ⟨hc, by simp [ho], m2, ?_, fun _ => ⟨rfl, _, rfl⟩, fun h => absurd h (by decide)⟩
    simp [probeOffsets_append, probeOffsets, hp]
  | false =>
    have hu2 : Dbl.lt (Dbl.sub (run env m (step env st)).offset env.cfg.resolution)
        (Dbl.fin 0) = false := by rw [ho]; exact hu
    rw [reportPhase_again env _ m2 hu2]
    exact ⟨hc, by simp [ho], m2, hp, fun h => absurd h (by decide), fun _ => rfl⟩

/-! ## Counting iterations -/

/-- The state after `k` iterations, as long as none of the first `k`
decrements has made `offset` negative: the loop is at its head, `offset` has
been decremented `k` times and one probe was made at each earlier value. -/
theorem boundary (env : Env) (hA : Answers env.dev) (hS : Settles env.dev)
    (hstop : ∀ i, env.stop i = false) (s : Dbl) (q : Nat) (tr : List Event) (k : Nat)
    (hk : ∀ j, j < k → Dbl.lt (offsetAfter s env.cfg.resolution (j + 1)) (Dbl.fin 0) = false) :
    ∃ n, (run env n (loopEntry s q tr)).pc = Pc.top ∧
      (run env n (loopEntry s q tr)).checks = k ∧
      (run env n (loopEntry s q tr)).offset = offsetAfter s env.cfg.resolution k ∧
      (run env n (loopEntry s q tr)).lock = true ∧
      probeOffsets (run env n (loopEntry s q tr)).trace =
        probeOffsets tr ++ (List.range k).map (offsetAfter s env.cfg.resolution) := by
  induction k with
  | zero => exact ⟨0, rfl, rfl, rfl, rfl, by simp [run, loopEntry]⟩
  | succ k ih =>
    obtain ⟨n, c0, c1, c2, c3, c4⟩ := ih (fun j hj => hk j (Nat.lt_succ_of_lt hj))
    have hst : env.stop (run env n (loopEntry s q tr)).checks = false := hstop _
    obtain ⟨m, i1, i2, i3, i4, -, i6⟩ :=
      iteration env hA hS (run env n (loopEntry s q tr)) c0 c3 hst
    have hnn : Dbl.lt (Dbl.sub (run env n (loopEntry s q tr)).offset env.cfg.resolution)
        (Dbl.fin 0) = false := by
      rw [c2]; exact hk k (Nat.lt_succ_self k)
    refine ⟨n + m, ?_⟩
    rw [run_add]
    refine ⟨i6 hnn, by rw [i1, c1], by rw [i2, c2]; rfl, i3, ?_⟩
    rw [i4, c4, c2, List.range_succ]
    simp

/-- When the decrement number `k + 1` is the first to make `offset` negative,
the loop is left by underflow after exactly `k + 1` iterations, and the final
state no longer changes. -/
theorem loop_ends (env : Env) (hA : Answers env.dev) (hS : Settles env.dev)
    (hstop : ∀ i, env.stop i = false) (s : Dbl) (q : Nat) (tr : List Event) (k : Nat)
    (hk : ∀ j, j < k → Dbl.lt (offsetAfter s env.cfg.resolution (j + 1)) (Dbl.fin 0) = false)
    (hneg : Dbl.lt (offsetAfter s env.cfg.resolution (k + 1)) (Dbl.fin 0) = true) :
    ∃ n0, ∀ n, n0 ≤ n →
      (run env n (loopEntry s q tr)).pc = Pc.exited Exit.underflow ∧
      (run env n (loopEntry s q tr)).checks = k + 1 ∧
      (run env n (loopEntry s q tr)).offset = offsetAfter s env.cfg.resolution (k + 1) ∧
      probeOffsets (run env n (loopEntry s q tr)).trace =
        probeOffsets tr ++ (List.range (k + 1)).map (offsetAfter s env.cfg.resolution) ∧
      ∃ pre, (run env n (loopEntry s q tr)).trace = pre ++ [Event.noFailure, Event.done] := by
  obtain ⟨n, c0, c1, c2, c3, c4⟩ := boundary env hA hS hstop s q tr k hk
  have hst : env.stop (run env n (loopEntry s q tr)).checks = false := hstop _
  obtain ⟨m, i1, i2, -, i4, i5, -⟩ :=
    iteration env hA hS (run env n (loopEntry s q tr)) c0 c3 hst
  have hn : Dbl.lt (Dbl.sub (run env n (loopEntry s q tr)).offset env.cfg.resolution)
      (Dbl.fin 0) = true := by
    rw [c2]; exact hneg
  obtain ⟨hpc, hpre⟩ := i5 hn
  refine ⟨n + m, fun n2 hn2 => ?_⟩
  obtain ⟨d, rfl⟩ := Nat.exists_eq_add_of_le hn2
  rw [run_add, run_exited env d _ _ (by rw [run_add]; exact hpc), run_add]
  refine ⟨hpc, by rw [i1, c1], by rw [i2, c2]; rfl, ?_, hpre⟩
  rw [i4, c4, c2, List.range_succ]
  simp

/-- When no decrement ever makes `offset` negative, a step keeps the loop away
from the underflow exit and from its message. -/
theorem step_never_underflows (env : Env) (s : Dbl)
    (hk : ∀ j, Dbl.lt (offsetAfter s env.cfg.resolution (j + 1)) (Dbl.fin 0) = false)
    (st : State)
    (h : (∃ k, st.offset = offsetAfter s env.cfg.resolution k) ∧
      st.pc ≠ Pc.exited Exit.underflow ∧ Event.noFailure ∉ st.trace) :
    (∃ k, (step env st).offset = offsetAfter s env.cfg.resolution k) ∧
      (step env st).pc ≠ Pc.exited Exit.underflow ∧ Event.noFailure ∉ (step env st).trace := by
  obtain ⟨⟨k, hoff⟩, h2, h3⟩ := h
  rcases step_cases env st with ⟨e, -, h⟩ | ⟨-, -, h⟩ | ⟨-, -, -, h⟩ | ⟨-, -, -, -, h⟩ |
    ⟨b, -, -, -, -, h⟩ | ⟨-, -, -, h⟩ | ⟨b, hpc, -, -, h⟩ | ⟨-, -, ho, h⟩ | ⟨-, -, -, h⟩
  · rw [h]; exact ⟨⟨k, hoff⟩, h2, h3⟩
  · rw [h]; exact ⟨⟨k, hoff⟩, by simp, by simp [h3]⟩
  · rw [h]; exact ⟨⟨k, hoff⟩, by simp, by simp [h3]⟩
  · rw [h]; exact ⟨⟨k, hoff⟩, by simp, by simp [h3]⟩
  · rw [h]; exact ⟨⟨k, hoff⟩, by simp, by simp [h3]⟩
  · rw [h]; exact ⟨⟨k, hoff⟩, by simp, by simp [h3]⟩
  · rw [h]; exact ⟨⟨k, hoff⟩, by simp [hpc], by simp [h3]⟩
  · rw [hoff] at ho
    have := hk k
    rw [offsetAfter, ho] at this
    cases this
  · rw [h]; exact ⟨⟨k + 1, by simp [hoff, offsetAfter]⟩, by simp, by simp [h3]⟩

/-- When no decrement ever makes `offset` negative, the loop is never left by
underflow and never prints the no-failure line, whatever the device and the
stop flag do. -/
theorem never_underflows (env : Env) (s : Dbl) (q : Nat) (tr : List Event)
    (hk : ∀ j, Dbl.lt (offsetAfter s env.cfg.resolution (j + 1)) (Dbl.fin 0) = false)
    (htr : Event.noFailure ∉ tr) (n : Nat) :
    (∃ k, (run env n (loopEntry s q tr)).offset = offsetAfter s env.cfg.resolution k) ∧
    (run env n (loopEntry s q tr)).pc ≠ Pc.exited Exit.underflow ∧
    Event.noFailure ∉ (run env n (loopEntry s q tr)).trace := by
  induction n with
  | zero => exact ⟨⟨0, rfl⟩, by simp [run, loopEntry], htr⟩
  | succ n ih =>
    rw [run_succ_last]
    exact step_never_underflows env s hk _ ih

/-! ## The repeated decrement in binary64 -/

/-- One binary64 decrement by `rv` lowers a value between `0` and `sv` by at
least `d`, when the rounding error `2 ^ -53 * sv` is at most `rv - d`. -/
theorem sub_decreases (sv rv d o : ℚ) (hr0 : 0 ≤ rv) (hrs : rv ≤ sv) (hs : sv < pow2 1023)
    (hn : pow2 (-1022) ≤ sv) (herr : pow2 (-53) * sv ≤ rv - d) (ho0 : 0 ≤ o) (hos : o ≤ sv) :
    ∃ y, Dbl.sub (Dbl.fin o) (Dbl.fin rv) = Dbl.fin y ∧ y ≤ o - d := by
  have habs : |o - rv| ≤ sv := by
    rw [abs_le]; constructor <;> linarith
  obtain ⟨y, hy, hclose⟩ := ofRat_close (o - rv) (lt_of_le_of_lt habs hs)
  refine ⟨y, hy, ?_⟩
  have hmax : pow2 (-53) * max |o - rv| (pow2 (-1022)) ≤ rv - d :=
    le_trans (mul_le_mul_of_nonneg_left (max_le habs hn) (pow2_pos _).le) herr
  have := (abs_le.mp (le_trans hclose hmax)).2
  linarith

/-- As long as no decrement has made the value negative, it has gone down by
at least `d` each time. -/
theorem offsetAfter_bound (sv rv d : ℚ) (hd : 0 ≤ d) (hr0 : 0 ≤ rv) (hrs : rv ≤ sv)
    (hs : sv < pow2 1023) (hn : pow2 (-1022) ≤ sv) (herr : pow2 (-53) * sv ≤ rv - d) (k : Nat)
    (hk : ∀ j, j < k →
      Dbl.lt (offsetAfter (Dbl.fin sv) (Dbl.fin rv) (j + 1)) (Dbl.fin 0) = false) :
    ∃ o, offsetAfter (Dbl.fin sv) (Dbl.fin rv) k = Dbl.fin o ∧ 0 ≤ o ∧
      o ≤ sv - (k : ℚ) * d := by
  induction k with
  | zero =>
    have : 0 ≤ sv := le_trans (pow2_pos _).le hn
    exact ⟨sv, rfl, this, by simp⟩
  | succ k ih =>
    obtain ⟨o, ho, ho0, hob⟩ := ih (fun j hj => hk j (Nat.lt_succ_of_lt hj))
    have hos : o ≤ sv := by
      have : 0 ≤ (k : ℚ) * d := mul_nonneg (Nat.cast_nonneg k) hd
      linarith
    obtain ⟨y, hy, hyb⟩ := sub_decreases sv rv d o hr0 hrs hs hn herr ho0 hos
    have hnext : offsetAfter (Dbl.fin sv) (Dbl.fin rv) (k + 1) = Dbl.fin y := by
      rw [offsetAfter, ho, hy]
    refine ⟨y, hnext, ?_, ?_⟩
    · have := hk k (Nat.lt_succ_self k)
      rw [hnext] at this
      simpa [Dbl.lt] using this
    · push_cast
      linarith

/-- When each binary64 decrement lowers the value by at least `d > 0`, the
repeated decrement becomes negative, for the first time after at most
`sv / d + 1` decrements. -/
theorem decrement_reaches_negative (sv rv d : ℚ) (hd : 0 < d) (hr0 : 0 ≤ rv) (hrs : rv ≤ sv)
    (hs : sv < pow2 1023) (hn : pow2 (-1022) ≤ sv) (herr : pow2 (-53) * sv ≤ rv - d) :
    ∃ k, (∀ j, j < k →
        Dbl.lt (offsetAfter (Dbl.fin sv) (Dbl.fin rv) (j + 1)) (Dbl.fin 0) = false) ∧
      Dbl.lt (offsetAfter (Dbl.fin sv) (Dbl.fin rv) (k + 1)) (Dbl.fin 0) = true ∧
      ((k + 1 : Nat) : ℚ) ≤ sv / d + 1 := by
  have hsv : 0 ≤ sv := le_trans (pow2_pos _).le hn
  have hex : ∃ j, Dbl.lt (offsetAfter (Dbl.fin sv) (Dbl.fin rv) (j + 1)) (Dbl.fin 0) = true ∧
      j < ⌊sv / d⌋₊ + 1 := by
    by_contra hno
    have hall : ∀ j, j < ⌊sv / d⌋₊ + 1 →
        Dbl.lt (offsetAfter (Dbl.fin sv) (Dbl.fin rv) (j + 1)) (Dbl.fin 0) = false := by
      intro j hj
      cases h : Dbl.lt (offsetAfter (Dbl.fin sv) (Dbl.fin rv) (j + 1)) (Dbl.fin 0) with
      | false => rfl
      | true => exact absurd ⟨j, h, hj⟩ hno
    obtain ⟨o, -, ho0, hob⟩ :=
      offsetAfter_bound sv rv d hd.le hr0 hrs hs hn herr (⌊sv / d⌋₊ + 1) hall
    have h1 : sv / d < ((⌊sv / d⌋₊ + 1 : Nat) : ℚ) := by
      push_cast; exact Nat.lt_floor_add_one _
    have h2 : sv < ((⌊sv / d⌋₊ + 1 : Nat) : ℚ) * d := (div_lt_iff₀ hd).mp h1
    linarith
  classical
  refine ⟨Nat.find hex, ?_, (Nat.find_spec hex).1, ?_⟩
  · intro j hj
    cases h : Dbl.lt (offsetAfter (Dbl.fin sv) (Dbl.fin rv) (j + 1)) (Dbl.fin 0) with
    | false => rfl
    | true =>
      have hlt : j < ⌊sv / d⌋₊ + 1 := lt_trans hj (Nat.find_spec hex).2
      exact absurd ⟨h, hlt⟩ (Nat.find_min hex hj)
  · have h1 : Nat.find hex + 1 ≤ ⌊sv / d⌋₊ + 1 := (Nat.find_spec hex).2
    have h2 : ((Nat.find hex + 1 : Nat) : ℚ) ≤ ((⌊sv / d⌋₊ + 1 : Nat) : ℚ) := by
      exact_mod_cast h1
    have h3 : ((⌊sv / d⌋₊ : Nat) : ℚ) ≤ sv / d := Nat.floor_le (div_nonneg hsv hd.le)
    push_cast at h2 ⊢
    linarith

/-- When every decrement up to the `N + 1`-st is exact, the repeated
decrement is `sv - k * rv`. -/
theorem exact_offsets (sv rv : ℚ) (N : Nat)
    (hexact : ∀ k : Nat, k ≤ N →
      Dbl.sub (Dbl.fin (sv - (k : ℚ) * rv)) (Dbl.fin rv) = Dbl.fin (sv - ((k : ℚ) + 1) * rv))
    (k : Nat) (hk : k ≤ N + 1) :
    offsetAfter (Dbl.fin sv) (Dbl.fin rv) k = Dbl.fin (sv - (k : ℚ) * rv) := by
  induction k with
  | zero => simp [offsetAfter]
  | succ k ih =>
    rw [offsetAfter, ih (by omega), hexact k (by omega)]
    push_cast
    rfl

/-! ## The program before the loop, and single steps -/

theorem main_fields (cfg : Config) (dev : Device) :
    (UHD_SAFE_MAIN cfg dev).lock = true ∧ (UHD_SAFE_MAIN cfg dev).offset = start_offset ∧
    (UHD_SAFE_MAIN cfg dev).checks = 0 ∧ tookValues (UHD_SAFE_MAIN cfg dev).trace = [] ∧
    (UHD_SAFE_MAIN cfg dev).pc ≠ Pc.exited Exit.loopCond ∧
    (UHD_SAFE_MAIN cfg dev).pc ≠ Pc.exited Exit.underflow := by
  unfold UHD_SAFE_MAIN
  cases dev.loLocked 0 with
  | none =>
    simp only [loopEntry]
    split_ifs <;> simp [tookValues_append, tookValues]
  | some b =>
    cases b <;> cases dev.mimoLocked <;> cases dev.refLocked <;>
    · simp only [loopEntry]
      split_ifs <;> simp [tookValues_append, tookValues] at *

theorem main_sound (cfg : Config) (dev : Device) : Sound (UHD_SAFE_MAIN cfg dev) :=
  ⟨fun _ => (main_fields cfg dev).1, (main_fields cfg dev).2.2.2.2.1⟩

/-- The first step from a loop head that passes both tests schedules the
retune and then makes the `lo_locked` call, whatever that call does. -/
theorem step_top_trace (env : Env) (st : State) (hpc : st.pc = Pc.top) (hl : st.lock = true)
    (hs : env.stop st.checks = false) :
    ∃ rest, (step env st).trace = st.trace ++
      Event.retune next_freq :: Event.probe st.offset (env.dev.loLocked st.queries) :: rest := by
  rw [step_top_go env st hpc hl hs]
  cases hq : env.dev.loLocked st.queries with
  | none =>
    exact ⟨[], congrArg State.trace
      (probePhase_none env { st with checks := st.checks + 1 } hq)⟩
  | some b =>
    exact ⟨[Event.reset env.cfg.freq], congrArg State.trace
      (probePhase_some env { st with checks := st.checks + 1 } b hq)⟩

/-- The first step of the program once the setup has reached the loop. -/
theorem program_first_step (cfg : Config) (dev : Device) (stop : Nat → Bool)
    (hpc : (UHD_SAFE_MAIN cfg dev).pc = Pc.top) (hstop : stop 0 = false) :
    ∃ rest, (program cfg dev stop 1).trace = (UHD_SAFE_MAIN cfg dev).trace ++
      Event.retune next_freq ::
        Event.probe start_offset (dev.loLocked (UHD_SAFE_MAIN cfg dev).queries) :: rest := by
  obtain ⟨h1, h2, h3, -⟩ := main_fields cfg dev
  have hs : ({ cfg := cfg, dev := dev, stop := stop } : Env).stop
      (UHD_SAFE_MAIN cfg dev).checks = false := by rw [h3]; exact hstop
  obtain ⟨rest, h⟩ := step_top_trace { cfg := cfg, dev := dev, stop := stop } _ hpc h1 hs
  rw [h2] at h
  exact ⟨rest, h⟩

/-- A step from the settle loop head issues no reset. -/
theorem step_settle_ext (env : Env) (st : State) (hpc : st.pc = Pc.settle) :
    ∃ w, (step env st).trace = st.trace ++ w ∧ resetCount w = 0 := by
  rcases step_cases env st with ⟨e, h, -⟩ | ⟨h, -, -⟩ | ⟨h, -, -, -⟩ | ⟨h, -, -, -, -⟩ |
    ⟨b, h, -, -, -, -⟩ | ⟨-, -, -, h⟩ | ⟨b, -, -, -, h⟩ | ⟨-, -, -, h⟩ | ⟨-, -, -, h⟩
  · rw [hpc] at h; cases h
  · rw [hpc] at h; cases h
  · rw [hpc] at h; cases h
  · rw [hpc] at h; cases h
  · rw [hpc] at h; cases h
  · exact ⟨[Event.settle none], by rw [h], rfl⟩
  · exact ⟨[Event.settle (some b)], by rw [h], rfl⟩
  · exact ⟨[Event.noFailure, Event.done], by rw [h], rfl⟩
  · exact ⟨[], by rw [h]; simp, rfl⟩

/-- Only the step from the loop head reads the stop flag, and it reads it once. -/
theorem step_checks (env : Env) (st : State) :
    (st.pc = Pc.top → st.lock = true → (step env st).checks = st.checks + 1) ∧
    (st.pc ≠ Pc.top → (step env st).checks = st.checks) := by
  rcases step_cases env st with ⟨e, hp, h⟩ | ⟨hp, hl, h⟩ | ⟨hp, -, -, h⟩ | ⟨hp, -, -, -, h⟩ |
    ⟨b, hp, -, -, -, h⟩ | ⟨hp, -, -, h⟩ | ⟨b, hp, -, -, h⟩ | ⟨hp, -, -, h⟩ | ⟨hp, -, -, h⟩ <;>
  rw [h] <;> simp_all

/-- After the initial check the sensor of `stuckDevice` never reads locked
again, so the first settle wait of the default run never ends. -/
theorem stuck_forever (n : Nat) :
    (program defaultConfig stuckDevice neverStop (n + 1)).pc = Pc.settle ∧
    (program defaultConfig stuckDevice neverStop (n + 1)).lock = false ∧
    1 ≤ (program defaultConfig stuckDevice neverStop (n + 1)).queries := by
  induction n with
  | zero =>
    simp [program, run, UHD_SAFE_MAIN, defaultConfig, stuckDevice, deviceOf, neverStop,
      loopEntry, step, probePhase]
  | succ n ih =>
    obtain ⟨h1, h2, h3⟩ := ih
    have hrun : program defaultConfig stuckDevice neverStop (n + 1 + 1)
        = step { cfg := defaultConfig, dev := stuckDevice, stop := neverStop }
            (program defaultConfig stuckDevice neverStop (n + 1)) := by
      unfold program
      exact run_succ_last _ _ _
    have hq : ({ cfg := defaultConfig, dev := stuckDevice, stop := neverStop } : Env).dev.loLocked
        (program defaultConfig stuckDevice neverStop (n + 1)).queries = some false := by
      have hne : ((program defaultConfig stuckDevice neverStop (n + 1)).queries == 0) = false := by
        rw [beq_eq_false_iff_ne]
        omega
      show some ((program defaultConfig stuckDevice neverStop (n + 1)).queries == 0) = some false
      rw [hne]
    rw [hrun, step_settle_some _ _ false h1 h2 hq]
    exact ⟨h1, rfl, by simp⟩

/-- The setup of a default run on a device with the sensor reading locked
reaches the loop after the one initial reading, whatever the resolution. -/
theorem main_withResolution (r : ℚ) (f : Nat → Bool) (h0 : f 0 = true) :
    UHD_SAFE_MAIN (withResolution r) (deviceOf f)
      = loopEntry start_offset 1 [Event.rxCheck true] := by
  simp [UHD_SAFE_MAIN, withResolution, defaultConfig, deviceOf, loopEntry, h0]

/-- With `--resolution 1e-21` the decrement leaves `offset` unchanged. -/
theorem absorbed_step (j : Nat) :
    offsetAfter start_offset (Dbl.ofRat (1 / 10 ^ 21)) j = start_offset := by
  induction j with
  | zero => rfl
  | succ j ih =>
    rw [offsetAfter, ih]
    decide!

/-! ## The claims -/

/-- C1, as stated, fails in binary64. With `--resolution 0.000001` and an
always-locked sensor the loop makes 500 iterations, while
`floor (start_offset / resolution) + 1` is 501, both for the values of the two
doubles and for the decimal values; on the default run it makes 50 iterations,
while `floor (0.0005 / 0.00001) + 1` is 51. -/
theorem C1_counterexample :
    (start_offset = Dbl.fin startValue ∧
      (withResolution (1 / 1000000)).resolution
        = Dbl.fin (4722366482869645 / 4722366482869645213696) ∧
      (0 : ℚ) < 4722366482869645 / 4722366482869645213696 ∧
      (4722366482869645 / 4722366482869645213696 : ℚ) < startValue ∧
      ((program (withResolution (1 / 1000000)) lockedDevice neverStop 1000).pc,
        (program (withResolution (1 / 1000000)) lockedDevice neverStop 1000).checks)
        = (Pc.exited Exit.underflow, 500) ∧
      ⌊startValue / (4722366482869645 / 4722366482869645213696 : ℚ)⌋₊ + 1 = 501 ∧
      ⌊(5 / 10000 : ℚ) / (1 / 1000000)⌋₊ + 1 = 501) ∧
    (((program defaultConfig lockedDevice neverStop 100).pc,
        (program defaultConfig lockedDevice neverStop 100).checks)
        = (Pc.exited Exit.underflow, 50) ∧
      ⌊(5 / 10000 : ℚ) / (1 / 100000)⌋₊ + 1 = 51) := by
  refine ⟨⟨by decide!, by decide!, by norm_num, by norm_num [startValue], by decide!, ?_, ?_⟩,
    by decide!, ?_⟩
  · rw [Nat.add_left_inj, Nat.floor_eq_iff (by norm_num [startValue])]
    constructor <;> norm_num [startValue]
  · rw [Nat.add_left_inj, Nat.floor_eq_iff (by norm_num)]
    constructor <;> norm_num
  · rw [Nat.add_left_inj, Nat.floor_eq_iff (by norm_num)]
    constructor <;> norm_num

/-- C1, amended: for finite binary64 values `start_offset > resolution > 0`,
with no cancellation, every sensor call answering and every settle wait
finishing, and provided every decrement on the way is exact in binary64 (the
binary64 difference of `start_offset - k * resolution` and `resolution` is
`start_offset - (k + 1) * resolution` for `k` up to
`floor (start_offset / resolution)`), the loop runs exactly
`floor (start_offset / resolution) + 1` iterations and then stays left (one
probe per iteration, at the offsets `start_offset - i * resolution`), and for
every `k` up to that count the state between iterations after the `k`-th one
has `offset = start_offset - k * resolution`. -/
theorem C1_exact_iteration_count (env : Env) (sv rv : ℚ) (q : Nat) (tr : List Event)
    (hres : env.cfg.resolution = Dbl.fin rv) (hr : 0 < rv) (hs : rv < sv)
    (hexact : ∀ k : Nat, k ≤ ⌊sv / rv⌋₊ →
      Dbl.sub (Dbl.fin (sv - (k : ℚ) * rv)) (Dbl.fin rv) = Dbl.fin (sv - ((k : ℚ) + 1) * rv))
    (hA : Answers env.dev) (hS : Settles env.dev) (hstop : ∀ i, env.stop i = false) :
    (∃ n0, ∀ n, n0 ≤ n →
      (run env n (loopEntry (Dbl.fin sv) q tr)).pc = Pc.exited Exit.underflow ∧
      (run env n (loopEntry (Dbl.fin sv) q tr)).checks = ⌊sv / rv⌋₊ + 1 ∧
      probeOffsets (run env n (loopEntry (Dbl.fin sv) q tr)).trace =
        probeOffsets tr ++ (List.range (⌊sv / rv⌋₊ + 1)).map
          (fun i : Nat => Dbl.fin (sv - (i : ℚ) * rv))) ∧
    (∀ k : Nat, k ≤ ⌊sv / rv⌋₊ + 1 →
      ∃ n, (run env n (loopEntry (Dbl.fin sv) q tr)).checks = k ∧
        (run env n (loopEntry (Dbl.fin sv) q tr)).pc ≠ Pc.settle ∧
        (run env n (loopEntry (Dbl.fin sv) q tr)).offset = Dbl.fin (sv - (k : ℚ) * rv)) := by
  have hs0 : 0 ≤ sv := le_of_lt (lt_trans hr hs)
  have hoff := exact_offsets sv rv ⌊sv / rv⌋₊ hexact
  have hnn : ∀ j, j < ⌊sv / rv⌋₊ →
      Dbl.lt (offsetAfter (Dbl.fin sv) env.cfg.resolution (j + 1)) (Dbl.fin 0) = false := by
    intro j hj
    rw [hres, hoff (j + 1) (by omega)]
    have h1 : ((j + 1 : Nat) : ℚ) ≤ sv / rv :=
      (Nat.le_floor_iff (div_nonneg hs0 hr.le)).mp hj
    have h2 : ((j + 1 : Nat) : ℚ) * rv ≤ sv := (le_div_iff₀ hr).mp h1
    simp only [Dbl.lt, decide_eq_false_iff_not, not_lt]
    linarith
  have hneg : Dbl.lt (offsetAfter (Dbl.fin sv) env.cfg.resolution (⌊sv / rv⌋₊ + 1))
      (Dbl.fin 0) = true := by
    rw [hres, hoff _ le_rfl]
    have h1 : sv / rv < (⌊sv / rv⌋₊ : ℚ) + 1 := Nat.lt_floor_add_one (sv / rv)
    have h2 : sv < ((⌊sv / rv⌋₊ : ℚ) + 1) * rv := (div_lt_iff₀ hr).mp h1
    simp only [Dbl.lt, decide_eq_true_eq]
    push_cast
    linarith
  have hmap : ∀ m, m ≤ ⌊sv / rv⌋₊ + 1 →
      (List.range m).map (offsetAfter (Dbl.fin sv) env.cfg.resolution)
        = (List.range m).map (fun i : Nat => Dbl.fin (sv - (i : ℚ) * rv)) := by
    intro m hm
    apply List.map_congr_left
    intro i hi
    rw [hres]
    exact hoff i (by have := List.mem_range.mp hi; omega)
  constructor
  · obtain ⟨n0, h⟩ := loop_ends env hA hS hstop (Dbl.fin sv) q tr ⌊sv / rv⌋₊ hnn hneg
    refine ⟨n0, fun n hn => ⟨(h n hn).1, (h n hn).2.1, ?_⟩⟩
    rw [(h n hn).2.2.2.1, hmap _ le_rfl]
  · intro k hk
    by_cases hle : k ≤ ⌊sv / rv⌋₊
    · obtain ⟨n, c0, c1, c2, -, -⟩ := boundary env hA hS hstop (Dbl.fin sv) q tr k
        (fun j hj => hnn j (by omega))
      refine ⟨n, c1, by rw [c0]; simp, ?_⟩
      rw [c2, hres]
      exact hoff k hk
    · have hk2 : k = ⌊sv / rv⌋₊ + 1 := by omega
      obtain ⟨n0, h⟩ := loop_ends env hA hS hstop (Dbl.fin sv) q tr ⌊sv / rv⌋₊ hnn hneg
      obtain ⟨h1, h2, h3, -⟩ := h n0 le_rfl
      refine ⟨n0, by rw [h2, hk2], by rw [h1]; simp, ?_⟩
      rw [h3, hres, hk2]
      exact hoff _ le_rfl

/-- With `--resolution 0.00025` every decrement is exact (0.0005, 0.00025, 0,
-0.00025 in binary64), so the conditions of `C1_exact_iteration_count` are met. -/
theorem C1_exact_iteration_count_witness :
    ((envWith (25 / 100000) lockedDevice).cfg.resolution = Dbl.fin (startValue / 2) ∧
      0 < startValue / 2 ∧ startValue / 2 < startValue ∧
      (∀ k : Nat, k ≤ ⌊startValue / (startValue / 2)⌋₊ →
        Dbl.sub (Dbl.fin (startValue - (k : ℚ) * (startValue / 2))) (Dbl.fin (startValue / 2))
          = Dbl.fin (startValue - ((k : ℚ) + 1) * (startValue / 2)))) ∧
    ((∃ n0, ∀ n, n0 ≤ n →
      (run (envWith (25 / 100000) lockedDevice) n (loopEntry (Dbl.fin startValue) 1 [])).pc
        = Pc.exited Exit.underflow ∧
      (run (envWith (25 / 100000) lockedDevice) n (loopEntry (Dbl.fin startValue) 1 [])).checks
        = ⌊startValue / (startValue / 2)⌋₊ + 1 ∧
      probeOffsets
          (run (envWith (25 / 100000) lockedDevice) n (loopEntry (Dbl.fin startValue) 1 [])).trace =
        probeOffsets [] ++ (List.range (⌊startValue / (startValue / 2)⌋₊ + 1)).map
          (fun i : Nat => Dbl.fin (startValue - (i : ℚ) * (startValue / 2)))) ∧
    (∀ k : Nat, k ≤ ⌊startValue / (startValue / 2)⌋₊ + 1 →
      ∃ n, (run (envWith (25 / 100000) lockedDevice) n
            (loopEntry (Dbl.fin startValue) 1 [])).checks = k ∧
        (run (envWith (25 / 100000) lockedDevice) n
            (loopEntry (Dbl.fin startValue) 1 [])).pc ≠ Pc.settle ∧
        (run (envWith (25 / 100000) lockedDevice) n
            (loopEntry (Dbl.fin startValue) 1 [])).offset
          = Dbl.fin (startValue - (k : ℚ) * (startValue / 2)))) := by
  have hfloor : ⌊startValue / (startValue / 2)⌋₊ = 2 := by
    rw [Nat.floor_eq_iff (by norm_num [startValue])]
    constructor <;> norm_num [startValue]
  have hexact : ∀ k : Nat, k ≤ ⌊startValue / (startValue / 2)⌋₊ →
      Dbl.sub (Dbl.fin (startValue - (k : ℚ) * (startValue / 2))) (Dbl.fin (startValue / 2))
        = Dbl.fin (startValue - ((k : ℚ) + 1) * (startValue / 2)) := by
    intro k hk
    rw [hfloor] at hk
    interval_cases k <;> decide!
  exact ⟨⟨by decide!, by norm_num [startValue], by norm_num [startValue], hexact⟩,
    C1_exact_iteration_count (envWith (25 / 100000) lockedDevice) startValue (startValue / 2)
      1 [] (by decide!) (by norm_num [startValue]) (by norm_num [startValue]) hexact
      (fun _ => ⟨true, rfl⟩) (fun _ => ⟨0, rfl⟩) (fun _ => rfl)⟩

/-- C2: on the default run with a sensor that is unlocked at every probe with
offset at most 0.0002, the probe of iteration 30 (offset just above 0.0002)
reads locked and the probe of iteration 31 (offset just below 0.0002) reads
unlocked, the loop runs its 50 iterations to the underflow exit, and no "took"
line has been printed. -/
theorem C2_no_took_line :
    (program defaultConfig boundaryDevice neverStop 120).pc = Pc.exited Exit.underflow ∧
    (program defaultConfig boundaryDevice neverStop 120).checks = 50 ∧
    (probeReadings (program defaultConfig boundaryDevice neverStop 120).trace)[29]?
      = some (Dbl.fin (1936908127739497 / 9223372036854775808), some true) ∧
    (2 / 10000 : ℚ) < 1936908127739497 / 9223372036854775808 ∧
    (probeReadings (program defaultConfig boundaryDevice neverStop 120).trace)[30]?
      = some (Dbl.fin (7378697629483797 / 36893488147419103232), some false) ∧
    (7378697629483797 / 36893488147419103232 : ℚ) ≤ 2 / 10000 ∧
    tookValues (program defaultConfig boundaryDevice neverStop 120).trace = [] := by
  refine ⟨by decide!, by decide!, by decide!, by norm_num, by decide!, by norm_num, by decide!⟩

/-- C3: a probe that reads unlocked does not end the loop. For every sensor
behaviour whose calls answer and whose settle waits finish, and with no
cancellation, the loop is never left through `while (lock)`. As long as none
of the first `k` decrements has made `offset` negative, the run reaches the
loop head after `k` iterations with `offset` decremented `k` times by
`resolution`, one probe made per iteration, exactly as the run with an
always-locked sensor does; and when the next decrement makes `offset`
negative, both runs are left by underflow after the same `k + 1` iterations. -/
theorem C3_unlock_keeps_looping (env : Env) (s : Dbl) (q : Nat) (tr : List Event)
    (hA : Answers env.dev) (hS : Settles env.dev) (hstop : ∀ i, env.stop i = false) :
    (∀ n, (run env n (loopEntry s q tr)).pc ≠ Pc.exited Exit.loopCond) ∧
    (∀ k, (∀ j, j < k →
        Dbl.lt (offsetAfter s env.cfg.resolution (j + 1)) (Dbl.fin 0) = false) →
      ∃ n m, (run env n (loopEntry s q tr)).pc = Pc.top ∧
        (run env n (loopEntry s q tr)).checks = k ∧
        (run env n (loopEntry s q tr)).offset = offsetAfter s env.cfg.resolution k ∧
        probeOffsets (run env n (loopEntry s q tr)).trace =
          probeOffsets tr ++ (List.range k).map (offsetAfter s env.cfg.resolution) ∧
        (run (lockedEnv env) m (loopEntry s q tr)).pc = Pc.top ∧
        (run (lockedEnv env) m (loopEntry s q tr)).checks = k ∧
        (run (lockedEnv env) m (loopEntry s q tr)).offset
          = offsetAfter s env.cfg.resolution k) ∧
    (∀ k, (∀ j, j < k →
        Dbl.lt (offsetAfter s env.cfg.resolution (j + 1)) (Dbl.fin 0) = false) →
      Dbl.lt (offsetAfter s env.cfg.resolution (k + 1)) (Dbl.fin 0) = true →
      ∃ n0, ∀ n, n0 ≤ n →
        (run env n (loopEntry s q tr)).pc = Pc.exited Exit.underflow ∧
        (run env n (loopEntry s q tr)).checks = k + 1 ∧
        (run env n (loopEntry s q tr)).offset = offsetAfter s env.cfg.resolution (k + 1) ∧
        probeOffsets (run env n (loopEntry s q tr)).trace =
          probeOffsets tr ++ (List.range (k + 1)).map (offsetAfter s env.cfg.resolution) ∧
        (run (lockedEnv env) n (loopEntry s q tr)).pc = Pc.exited Exit.underflow ∧
        (run (lockedEnv env) n (loopEntry s q tr)).checks = k + 1) := by
  have hAl : Answers (lockedEnv env).dev := fun _ => ⟨true, rfl⟩
  have hSl : Settles (lockedEnv env).dev := fun _ => ⟨0, rfl⟩
  refine ⟨fun n => (run_sound env n _ (loopEntry_sound s q tr)).2, ?_, ?_⟩
  · intro k hk
    obtain ⟨n, a0, a1, a2, -, a4⟩ := boundary env hA hS hstop s q tr k hk
    obtain ⟨m, b0, b1, b2, -, -⟩ := boundary (lockedEnv env) hAl hSl hstop s q tr k hk
    exact ⟨n, m, a0, a1, a2, a4, b0, b1, b2⟩
  · intro k hk hneg
    obtain ⟨n1, h1⟩ := loop_ends env hA hS hstop s q tr k hk hneg
    obtain ⟨n2, h2⟩ := loop_ends (lockedEnv env) hAl hSl hstop s q tr k hk hneg
    refine ⟨max n1 n2, fun n hn => ?_⟩
    obtain ⟨a1, a2, a3, a4, -⟩ := h1 n (le_trans (le_max_left _ _) hn)
    obtain ⟨b1, b2, -⟩ := h2 n (le_trans (le_max_right _ _) hn)
    exact ⟨a1, a2, a3, a4, b1, b2⟩

/-- The default run on a device whose every probe reads unlocked meets the
conditions of `C3_unlock_keeps_looping`; its first 49 decrements leave `offset`
non-negative and the 50th makes it negative. -/
theorem C3_unlock_keeps_looping_witness :
    (Answers (envOf unlockedProbeDevice).dev ∧ Settles (envOf unlockedProbeDevice).dev ∧
      (∀ i, (envOf unlockedProbeDevice).stop i = false) ∧
      (∀ j, j < 49 → Dbl.lt (offsetAfter start_offset
          (envOf unlockedProbeDevice).cfg.resolution (j + 1)) (Dbl.fin 0) = false) ∧
      Dbl.lt (offsetAfter start_offset
          (envOf unlockedProbeDevice).cfg.resolution (49 + 1)) (Dbl.fin 0) = true) ∧
    ((∀ n, (run (envOf unlockedProbeDevice) n (loopEntry start_offset 1 [])).pc
        ≠ Pc.exited Exit.loopCond) ∧
    (∀ k, (∀ j, j < k → Dbl.lt (offsetAfter start_offset
          (envOf unlockedProbeDevice).cfg.resolution (j + 1)) (Dbl.fin 0) = false) →
      ∃ n m, (run (envOf unlockedProbeDevice) n (loopEntry start_offset 1 [])).pc = Pc.top ∧
        (run (envOf unlockedProbeDevice) n (loopEntry start_offset 1 [])).checks = k ∧
        (run (envOf unlockedProbeDevice) n (loopEntry start_offset 1 [])).offset
          = offsetAfter start_offset (envOf unlockedProbeDevice).cfg.resolution k ∧
        probeOffsets (run (envOf unlockedProbeDevice) n (loopEntry start_offset 1 [])).trace =
          probeOffsets [] ++ (List.range k).map
            (offsetAfter start_offset (envOf unlockedProbeDevice).cfg.resolution) ∧
        (run (lockedEnv (envOf unlockedProbeDevice)) m (loopEntry start_offset 1 [])).pc
          = Pc.top ∧
        (run (lockedEnv (envOf unlockedProbeDevice)) m (loopEntry start_offset 1 [])).checks
          = k ∧
        (run (lockedEnv (envOf unlockedProbeDevice)) m (loopEntry start_offset 1 [])).offset
          = offsetAfter start_offset (envOf unlockedProbeDevice).cfg.resolution k) ∧
    (∀ k, (∀ j, j < k → Dbl.lt (offsetAfter start_offset
          (envOf unlockedProbeDevice).cfg.resolution (j + 1)) (Dbl.fin 0) = false) →
      Dbl.lt (offsetAfter start_offset
          (envOf unlockedProbeDevice).cfg.resolution (k + 1)) (Dbl.fin 0) = true →
      ∃ n0, ∀ n, n0 ≤ n →
        (run (envOf unlockedProbeDevice) n (loopEntry start_offset 1 [])).pc
          = Pc.exited Exit.underflow ∧
        (run (envOf unlockedProbeDevice) n (loopEntry start_offset 1 [])).checks = k + 1 ∧
        (run (envOf unlockedProbeDevice) n (loopEntry start_offset 1 [])).offset
          = offsetAfter start_offset (envOf unlockedProbeDevice).cfg.resolution (k + 1) ∧
        probeOffsets (run (envOf unlockedProbeDevice) n (loopEntry start_offset 1 [])).trace =
          probeOffsets [] ++ (List.range (k + 1)).map
            (offsetAfter start_offset (envOf unlockedProbeDevice).cfg.resolution) ∧
        (run (lockedEnv (envOf unlockedProbeDevice)) n (loopEntry start_offset 1 [])).pc
          = Pc.exited Exit.underflow ∧
        (run (lockedEnv (envOf unlockedProbeDevice)) n (loopEntry start_offset 1 [])).checks
          = k + 1)) :=
  ⟨⟨fun _ => ⟨_, rfl⟩,
    fun q => ⟨q, by simp [envOf, unlockedProbeDevice, deviceOf]; omega⟩,
    fun _ => rfl, by decide!, by decide!⟩,
   C3_unlock_keeps_looping (envOf unlockedProbeDevice) start_offset 1 []
    (fun _ => ⟨_, rfl⟩)
    (fun q => ⟨q, by simp [envOf, unlockedProbeDevice, deviceOf]; omega⟩)
    (fun _ => rfl)⟩

/-- C4, as stated, fails in binary64: with `--resolution 1e-21`, which is
positive and below `start_offset`, and an always-locked sensor, the decrement
leaves `offset` unchanged, so the loop is never left by underflow and the
no-failure line is never printed. -/
theorem C4_counterexample :
    start_offset = Dbl.fin startValue ∧
    (withResolution (1 / 10 ^ 21)).resolution
      = Dbl.fin (5316911983139663 / 5316911983139663491615228241121378304) ∧
    (0 : ℚ) < 5316911983139663 / 5316911983139663491615228241121378304 ∧
    (5316911983139663 / 5316911983139663491615228241121378304 : ℚ) < startValue ∧
    (∀ n, lockedDevice.loLocked n = some true) ∧
    Dbl.sub start_offset (withResolution (1 / 10 ^ 21)).resolution = start_offset ∧
    (∀ n, (program (withResolution (1 / 10 ^ 21)) lockedDevice neverStop n).pc
        ≠ Pc.exited Exit.underflow ∧
      Event.noFailure ∉ (program (withResolution (1 / 10 ^ 21)) lockedDevice neverStop n).trace) := by
  refine ⟨by decide!, by decide!, by norm_num, by norm_num [startValue], fun _ => rfl,
    by decide!, fun n => ?_⟩
  have hk : ∀ j, Dbl.lt (offsetAfter start_offset
      (envWith (1 / 10 ^ 21) lockedDevice).cfg.resolution (j + 1)) (Dbl.fin 0) = false := by
    intro j
    have : (envWith (1 / 10 ^ 21) lockedDevice).cfg.resolution = Dbl.ofRat (1 / 10 ^ 21) := rfl
    rw [this, absorbed_step]
    decide!
  have h := never_underflows (envWith (1 / 10 ^ 21) lockedDevice) start_offset 1
    [Event.rxCheck true] hk (by simp) n
  have hprog : program (withResolution (1 / 10 ^ 21)) lockedDevice neverStop n
      = run (envWith (1 / 10 ^ 21) lockedDevice) n (loopEntry start_offset 1 [Event.rxCheck true]) := by
    unfold program
    rw [show lockedDevice = deviceOf (fun _ => true) from rfl, main_withResolution _ _ rfl]
    rfl
  rw [hprog]
  exact ⟨h.2.1, h.2.2⟩

/-- C4, amended: when every `lo_locked` reading is `true`, for finite binary64
values `start_offset > resolution > 0` and no cancellation, no "took" line is
printed by the loop at any point of the run; and the loop ends with the line
"Device did not report failure to lock LO." followed by "Done!" whenever the
repeated binary64 decrement of `offset` makes it negative, which it does
whenever `resolution` is at least `2 ^ -52` of a normal `start_offset` below
`2 ^ 1023`. -/
theorem C4_all_locked_no_report (env : Env) (sv rv : ℚ) (q : Nat) (tr : List Event)
    (hres : env.cfg.resolution = Dbl.fin rv) (hr : 0 < rv) (hs : rv < sv)
    (hall : ∀ n, env.dev.loLocked n = some true) (hstop : ∀ i, env.stop i = false) :
    (∀ n, tookValues (run env n (loopEntry (Dbl.fin sv) q tr)).trace = tookValues tr) ∧
    (∀ k, (∀ j, j < k →
        Dbl.lt (offsetAfter (Dbl.fin sv) (Dbl.fin rv) (j + 1)) (Dbl.fin 0) = false) →
      Dbl.lt (offsetAfter (Dbl.fin sv) (Dbl.fin rv) (k + 1)) (Dbl.fin 0) = true →
      ∃ n0, ∀ n, n0 ≤ n →
        (run env n (loopEntry (Dbl.fin sv) q tr)).pc = Pc.exited Exit.underflow ∧
        (run env n (loopEntry (Dbl.fin sv) q tr)).checks = k + 1 ∧
        ∃ pre, (run env n (loopEntry (Dbl.fin sv) q tr)).trace
          = pre ++ [Event.noFailure, Event.done]) ∧
    (pow2 (-1022) ≤ sv → sv < pow2 1023 → sv ≤ pow2 52 * rv →
      ∃ n0, ∀ n, n0 ≤ n →
        (run env n (loopEntry (Dbl.fin sv) q tr)).pc = Pc.exited Exit.underflow ∧
        ∃ pre, (run env n (loopEntry (Dbl.fin sv) q tr)).trace
          = pre ++ [Event.noFailure, Event.done]) := by
  have hA : Answers env.dev := fun n => ⟨true, hall n⟩
  have hS : Settles env.dev := fun q => ⟨0, hall _⟩
  have ends : ∀ k, (∀ j, j < k →
        Dbl.lt (offsetAfter (Dbl.fin sv) (Dbl.fin rv) (j + 1)) (Dbl.fin 0) = false) →
      Dbl.lt (offsetAfter (Dbl.fin sv) (Dbl.fin rv) (k + 1)) (Dbl.fin 0) = true →
      ∃ n0, ∀ n, n0 ≤ n →
        (run env n (loopEntry (Dbl.fin sv) q tr)).pc = Pc.exited Exit.underflow ∧
        (run env n (loopEntry (Dbl.fin sv) q tr)).checks = k + 1 ∧
        ∃ pre, (run env n (loopEntry (Dbl.fin sv) q tr)).trace
          = pre ++ [Event.noFailure, Event.done] := by
    intro k hk hneg
    rw [← hres] at hk hneg
    obtain ⟨n0, h⟩ := loop_ends env hA hS hstop (Dbl.fin sv) q tr k hk hneg
    exact ⟨n0, fun n hn => ⟨(h n hn).1, (h n hn).2.1, (h n hn).2.2.2.2⟩⟩
  refine ⟨fun n => run_tookValues env n _, ends, ?_⟩
  intro hn hlt hbig
  have h53 : pow2 (-53) * pow2 52 = 1 / 2 := by
    rw [← pow2_add]; exact pow2_neg_one
  have herr : pow2 (-53) * sv ≤ rv - rv / 2 := by
    calc pow2 (-53) * sv ≤ pow2 (-53) * (pow2 52 * rv) :=
          mul_le_mul_of_nonneg_left hbig (pow2_pos _).le
      _ = rv - rv / 2 := by rw [← mul_assoc, h53]; ring
  obtain ⟨k, hk, hneg, -⟩ :=
    decrement_reaches_negative sv rv (rv / 2) (by linarith) hr.le hs.le hlt hn herr
  obtain ⟨n0, h⟩ := ends k hk hneg
  exact ⟨n0, fun n hn2 => ⟨(h n hn2).1, (h n hn2).2.2⟩⟩

/-- The default run on an always-locked device meets the conditions of
`C4_all_locked_no_report`, and its `start_offset` and `resolution` are in the
range where the loop ends. -/
theorem C4_all_locked_no_report_witness :
    ((envOf lockedDevice).cfg.resolution = Dbl.fin defaultStepValue ∧
      start_offset = Dbl.fin startValue ∧
      0 < defaultStepValue ∧ defaultStepValue < startValue ∧
      (∀ n, (envOf lockedDevice).dev.loLocked n = some true) ∧
      (∀ i, (envOf lockedDevice).stop i = false) ∧
      pow2 (-1022) ≤ startValue ∧ startValue < pow2 1023 ∧
      startValue ≤ pow2 52 * defaultStepValue) ∧
    ((∀ n, tookValues (run (envOf lockedDevice) n (loopEntry (Dbl.fin startValue) 1 [])).trace
        = tookValues []) ∧
    (∀ k, (∀ j, j < k → Dbl.lt (offsetAfter (Dbl.fin startValue) (Dbl.fin defaultStepValue)
          (j + 1)) (Dbl.fin 0) = false) →
      Dbl.lt (offsetAfter (Dbl.fin startValue) (Dbl.fin defaultStepValue) (k + 1))
        (Dbl.fin 0) = true →
      ∃ n0, ∀ n, n0 ≤ n →
        (run (envOf lockedDevice) n (loopEntry (Dbl.fin startValue) 1 [])).pc
          = Pc.exited Exit.underflow ∧
        (run (envOf lockedDevice) n (loopEntry (Dbl.fin startValue) 1 [])).checks = k + 1 ∧
        ∃ pre, (run (envOf lockedDevice) n (loopEntry (Dbl.fin startValue) 1 [])).trace
          = pre ++ [Event.noFailure, Event.done]) ∧
    (pow2 (-1022) ≤ startValue → startValue < pow2 1023 →
      startValue ≤ pow2 52 * defaultStepValue →
      ∃ n0, ∀ n, n0 ≤ n →
        (run (envOf lockedDevice) n (loopEntry (Dbl.fin startValue) 1 [])).pc
          = Pc.exited Exit.underflow ∧
        ∃ pre, (run (envOf lockedDevice) n (loopEntry (Dbl.fin startValue) 1 [])).trace
          = pre ++ [Event.noFailure, Event.done])) :=
  ⟨⟨by decide!, by decide!, by norm_num [defaultStepValue],
    by norm_num [defaultStepValue, startValue], fun _ => rfl, fun _ => rfl,
    by decide!, by decide!, by decide!⟩,
   C4_all_locked_no_report (envOf lockedDevice) startValue defaultStepValue 1 []
    (by decide!) (by norm_num [defaultStepValue])
    (by norm_num [defaultStepValue, startValue]) (fun _ => rfl) (fun _ => rfl)⟩

/-- C5, as stated, fails. With `--resolution 0.0003` and an always-locked
sensor the loop takes 2 iterations although `start_offset / resolution` is
below 2; with `--resolution 0.0001` it takes 6 iterations although
`start_offset / resolution + 1` is below 6 for the values of the two doubles;
with `--resolution 1e-21` the decrement is absorbed and the loop is never left
by underflow; and on a device that never reads locked after the initial check
the default run never leaves its first settle wait. -/
theorem C5_counterexample :
    ((withResolution (3 / 10000)).resolution
        = Dbl.fin (5534023222112865 / 18446744073709551616) ∧
      (0 : ℚ) < 5534023222112865 / 18446744073709551616 ∧
      (5534023222112865 / 18446744073709551616 : ℚ) < startValue ∧
      ((program (withResolution (3 / 10000)) lockedDevice neverStop 4).pc,
        (program (withResolution (3 / 10000)) lockedDevice neverStop 4).checks)
        = (Pc.exited Exit.underflow, 2) ∧
      ¬ ((2 : ℚ) ≤ startValue / (5534023222112865 / 18446744073709551616)) ∧
      ¬ ((2 : ℚ) ≤ (5 / 10000) / (3 / 10000))) ∧
    ((withResolution (1 / 10000)).resolution
        = Dbl.fin (7378697629483821 / 73786976294838206464) ∧
      ((program (withResolution (1 / 10000)) lockedDevice neverStop 12).pc,
        (program (withResolution (1 / 10000)) lockedDevice neverStop 12).checks)
        = (Pc.exited Exit.underflow, 6) ∧
      ¬ ((6 : ℚ) ≤ startValue / (7378697629483821 / 73786976294838206464) + 1)) ∧
    (∀ n, (program (withResolution (1 / 10 ^ 21)) lockedDevice neverStop n).pc
        ≠ Pc.exited Exit.underflow) ∧
    (∀ n, ∀ e, (program defaultConfig stuckDevice neverStop (n + 1)).pc ≠ Pc.exited e) := by
  refine ⟨⟨by decide!, by norm_num, by norm_num [startValue], by decide!,
      by norm_num [startValue], by norm_num⟩,
    ⟨by decide!, by decide!, by norm_num [startValue]⟩, fun n => ?_, fun n e => ?_⟩
  · have hk : ∀ j, Dbl.lt (offsetAfter start_offset
        (envWith (1 / 10 ^ 21) lockedDevice).cfg.resolution (j + 1)) (Dbl.fin 0) = false := by
      intro j
      have : (envWith (1 / 10 ^ 21) lockedDevice).cfg.resolution = Dbl.ofRat (1 / 10 ^ 21) := rfl
      rw [this, absorbed_step]
      decide!
    have h := never_underflows (envWith (1 / 10 ^ 21) lockedDevice) start_offset 1
      [Event.rxCheck true] hk (by simp) n
    have hprog : program (withResolution (1 / 10 ^ 21)) lockedDevice neverStop n
        = run (envWith (1 / 10 ^ 21) lockedDevice) n
            (loopEntry start_offset 1 [Event.rxCheck true]) := by
      unfold program
      rw [show lockedDevice = deviceOf (fun _ => true) from rfl, main_withResolution _ _ rfl]
      rfl
    rw [hprog]
    exact h.2.1
  · rw [(stuck_forever n).1]
    simp

/-- C5, amended: for finite binary64 values `start_offset > resolution > 0`
with `start_offset` normal and below `2 ^ 1023` and `resolution` at least
`2 ^ -26` of `start_offset`, absent cancellation and provided every sensor call
answers and every settle wait finishes, the loop ends after a finite number of
iterations that is at most `start_offset / resolution + 2`. -/
theorem C5_terminates_bound (env : Env) (sv rv : ℚ) (q : Nat) (tr : List Event)
    (hres : env.cfg.resolution = Dbl.fin rv) (hr : 0 < rv) (hs : rv < sv)
    (hn : pow2 (-1022) ≤ sv) (hlt : sv < pow2 1023) (hbig : sv ≤ pow2 26 * rv)
    (hA : Answers env.dev) (hS : Settles env.dev) (hstop : ∀ i, env.stop i = false) :
    ∃ n0, ∀ n, n0 ≤ n →
      (run env n (loopEntry (Dbl.fin sv) q tr)).pc = Pc.exited Exit.underflow ∧
      ((run env n (loopEntry (Dbl.fin sv) q tr)).checks : ℚ) ≤ sv / rv + 2 := by
  have hsv : 0 < sv := lt_trans hr hs
  have hu : 2 * pow2 (-53) * pow2 26 * pow2 26 = 1 := by
    have h1 : pow2 (-53) * pow2 26 * pow2 26 = pow2 (-1) := by
      rw [← pow2_add, ← pow2_add]; rfl
    rw [mul_assoc, mul_assoc, ← mul_assoc (pow2 (-53)), h1, pow2_neg_one]
    norm_num
  -- the rounding error of one decrement is at most half of `rv`
  have e1 : sv * sv ≤ (pow2 26 * rv) * (pow2 26 * rv) :=
    mul_le_mul hbig hbig hsv.le (le_trans hsv.le hbig)
  have e2 : sv * rv ≤ (pow2 26 * rv) * (pow2 26 * rv) := by
    have h1 : rv ≤ pow2 26 * rv := le_trans hs.le hbig
    exact mul_le_mul hbig h1 hr.le (le_trans hsv.le hbig)
  have e3 : pow2 (-53) * (sv * sv + sv * rv) ≤ rv * rv := by
    calc pow2 (-53) * (sv * sv + sv * rv)
        ≤ pow2 (-53) * ((pow2 26 * rv) * (pow2 26 * rv) + (pow2 26 * rv) * (pow2 26 * rv)) :=
          mul_le_mul_of_nonneg_left (add_le_add e1 e2) (pow2_pos _).le
      _ = (2 * pow2 (-53) * pow2 26 * pow2 26) * (rv * rv) := by ring
      _ = rv * rv := by rw [hu, one_mul]
  have e4 : pow2 (-53) * sv * rv < rv * rv := by
    have h1 : 0 < pow2 (-53) * (sv * sv) := mul_pos (pow2_pos _) (mul_pos hsv hsv)
    have h2 : pow2 (-53) * (sv * sv + sv * rv) = pow2 (-53) * (sv * sv) + pow2 (-53) * sv * rv := by
      ring
    linarith
  have hd : 0 < rv - pow2 (-53) * sv := by
    have h1 : pow2 (-53) * sv < rv := lt_of_mul_lt_mul_right e4 hr.le
    linarith
  obtain ⟨k, hk, hneg, hcount⟩ := decrement_reaches_negative sv rv (rv - pow2 (-53) * sv) hd
    hr.le hs.le hlt hn (by linarith)
  rw [← hres] at hk hneg
  obtain ⟨n0, h⟩ := loop_ends env hA hS hstop (Dbl.fin sv) q tr k hk hneg
  refine ⟨n0, fun n hn2 => ⟨(h n hn2).1, ?_⟩⟩
  rw [(h n hn2).2.1]
  have hdiv : sv / (rv - pow2 (-53) * sv) ≤ sv / rv + 1 := by
    rw [div_add_one (ne_of_gt hr), div_le_div_iff₀ hd hr]
    have : (sv + rv) * (rv - pow2 (-53) * sv)
        = sv * rv + (rv * rv - pow2 (-53) * (sv * sv + sv * rv)) := by ring
    rw [this]
    linarith
  linarith

/-- The default run on an always-locked device meets the conditions of
`C5_terminates_bound`. -/
theorem C5_terminates_bound_witness :
    ((envOf lockedDevice).cfg.resolution = Dbl.fin defaultStepValue ∧
      0 < defaultStepValue ∧ defaultStepValue < startValue ∧
      pow2 (-1022) ≤ startValue ∧ startValue < pow2 1023 ∧
      startValue ≤ pow2 26 * defaultStepValue) ∧
    ∃ n0, ∀ n, n0 ≤ n →
      (run (envOf lockedDevice) n (loopEntry (Dbl.fin startValue) 1 [])).pc
        = Pc.exited Exit.underflow ∧
      ((run (envOf lockedDevice) n (loopEntry (Dbl.fin startValue) 1 [])).checks : ℚ)
        ≤ startValue / defaultStepValue + 2 :=
  ⟨⟨by decide!, by norm_num [defaultStepValue], by norm_num [defaultStepValue, startValue],
    by decide!, by decide!, by decide!⟩,
   C5_terminates_bound (envOf lockedDevice) startValue defaultStepValue 1 []
    (by decide!) (by norm_num [defaultStepValue])
    (by norm_num [defaultStepValue, startValue]) (by decide!) (by decide!) (by decide!)
    (fun _ => ⟨true, rfl⟩) (fun _ => ⟨0, rfl⟩) (fun _ => rfl)⟩

/-- C6: in an iteration that passes the cancellation check and whose probe
returns a reading `b` (locked or unlocked), the step from the loop head issues
retune, probe, reset in this order and goes to the settle loop, and for as
long as the iteration lasts (all earlier states at the settle loop head) the
events added after that reset contain no further reset. -/
theorem C6_reset_once (env : Env) (st : State) (b : Bool)
    (hpc : st.pc = Pc.top) (hl : st.lock = true) (hs : env.stop st.checks = false)
    (hq : env.dev.loLocked st.queries = some b) :
    (step env st).pc = Pc.settle ∧
    ∀ n, (∀ m, m < n → (run env m (step env st)).pc = Pc.settle) →
      ∃ w, (run env n (step env st)).trace =
          st.trace ++ [Event.retune next_freq, Event.probe st.offset (some b),
                       Event.reset env.cfg.freq] ++ w ∧
        resetCount w = 0 ∧
        resetCount (run env n (step env st)).trace = resetCount st.trace + 1 := by
  have h1 : step env st =
      { st with checks := st.checks + 1, lock := b, queries := st.queries + 1,
                trace := st.trace ++ [Event.retune next_freq, Event.probe st.offset (some b),
                                      Event.reset env.cfg.freq],
                pc := Pc.settle } := by
    rw [step_top_go env st hpc hl hs]
    exact probePhase_some env _ b hq
  refine ⟨by rw [h1], ?_⟩
  have key : ∀ n, (∀ m, m < n → (run env m (step env st)).pc = Pc.settle) →
      ∃ w, (run env n (step env st)).trace =
          st.trace ++ [Event.retune next_freq, Event.probe st.offset (some b),
                       Event.reset env.cfg.freq] ++ w ∧ resetCount w = 0 := by
    intro n
    induction n with
    | zero => intro _; exact ⟨[], by rw [h1]; simp [run], rfl⟩
    | succ n ih =>
      intro hm
      obtain ⟨w, hw, hw0⟩ := ih (fun m hmn => hm m (Nat.lt_succ_of_lt hmn))
      obtain ⟨w2, hw2, hw20⟩ := step_settle_ext env _ (hm n (Nat.lt_succ_self n))
      refine ⟨w ++ w2, ?_, ?_⟩
      · rw [run_succ_last, hw2, hw]; simp
      · rw [resetCount_append, hw0, hw20]
  intro n hn
  obtain ⟨w, hw, hw0⟩ := key n hn
  refine ⟨w, hw, hw0, ?_⟩
  rw [hw, resetCount_append, resetCount_append, hw0]
  simp [resetCount]

/-- The first iteration of the default run with an unlocked probe meets the
conditions of `C6_reset_once`. -/
theorem C6_reset_once_witness :
    ((loopEntry start_offset 1 []).pc = Pc.top ∧ (loopEntry start_offset 1 []).lock = true ∧
      (envOf unlockedProbeDevice).stop (loopEntry start_offset 1 []).checks = false ∧
      (envOf unlockedProbeDevice).dev.loLocked (loopEntry start_offset 1 []).queries
        = some false) ∧
    ((step (envOf unlockedProbeDevice) (loopEntry start_offset 1 [])).pc = Pc.settle ∧
    ∀ n, (∀ m, m < n →
        (run (envOf unlockedProbeDevice) m
          (step (envOf unlockedProbeDevice) (loopEntry start_offset 1 []))).pc = Pc.settle) →
      ∃ w, (run (envOf unlockedProbeDevice) n
            (step (envOf unlockedProbeDevice) (loopEntry start_offset 1 []))).trace =
          (loopEntry start_offset 1 []).trace ++
            [Event.retune next_freq, Event.probe (loopEntry start_offset 1 []).offset (some false),
             Event.reset (envOf unlockedProbeDevice).cfg.freq] ++ w ∧
        resetCount w = 0 ∧
        resetCount (run (envOf unlockedProbeDevice) n
            (step (envOf unlockedProbeDevice) (loopEntry start_offset 1 []))).trace
          = resetCount (loopEntry start_offset 1 []).trace + 1) :=
  ⟨⟨rfl, rfl, rfl, rfl⟩,
   C6_reset_once (envOf unlockedProbeDevice) (loopEntry start_offset 1 []) false rfl rfl rfl rfl⟩

/-- C7, as stated, fails: with `--resolution 0.001` (at least `start_offset`)
and with `--resolution 0` the program is not stopped before the loop and its
first step schedules the retune, makes the lock query and resets. -/
theorem C7_counterexample :
    (Dbl.le start_offset (withResolution (1 / 1000)).resolution = true ∧
      (UHD_SAFE_MAIN (withResolution (1 / 1000)) lockedDevice).pc = Pc.top ∧
      (program (withResolution (1 / 1000)) lockedDevice neverStop 1).trace =
        [Event.rxCheck true, Event.retune next_freq, Event.probe start_offset (some true),
         Event.reset (Dbl.ofRat 500000000)]) ∧
    (Dbl.le (withResolution 0).resolution (Dbl.fin 0) = true ∧
      (UHD_SAFE_MAIN (withResolution 0) lockedDevice).pc = Pc.top ∧
      (program (withResolution 0) lockedDevice neverStop 1).trace =
        [Event.rxCheck true, Event.retune next_freq, Event.probe start_offset (some true),
         Event.reset (Dbl.ofRat 500000000)]) := by
  refine ⟨⟨by decide!, by decide!, by decide!⟩, ⟨by decide!, by decide!, by decide!⟩⟩

/-- C7, amended: a resolution with `resolution <= 0` or `resolution >= start_offset`
is not rejected. The setup before the loop gives the same result as with the
default resolution, and whenever it reaches the loop and the stop flag is not
set at the first check, the first probe iteration is performed: the retune is
scheduled and the lock query at `start_offset` is made. -/
theorem C7_resolution_not_validated (cfg : Config) (dev : Device) (stop : Nat → Bool)
    (_hres : Dbl.le cfg.resolution (Dbl.fin 0) = true ∨
      Dbl.le start_offset cfg.resolution = true)
    (hpc : (UHD_SAFE_MAIN cfg dev).pc = Pc.top) (hstop : stop 0 = false) :
    UHD_SAFE_MAIN cfg dev = UHD_SAFE_MAIN { cfg with resolution := default_resolution } dev ∧
    ∃ rest, (program cfg dev stop 1).trace = (UHD_SAFE_MAIN cfg dev).trace ++
      Event.retune next_freq ::
        Event.probe start_offset (dev.loLocked (UHD_SAFE_MAIN cfg dev).queries) :: rest :=
  ⟨rfl, program_first_step cfg dev stop hpc hstop⟩

/-- The run with `--resolution 0.001` meets the conditions of
`C7_resolution_not_validated`. -/
theorem C7_resolution_not_validated_witness :
    (Dbl.le (withResolution (1 / 1000)).resolution (Dbl.fin 0) = true ∨
      Dbl.le start_offset (withResolution (1 / 1000)).resolution = true) ∧
    (UHD_SAFE_MAIN (withResolution (1 / 1000)) lockedDevice).pc = Pc.top ∧
    neverStop 0 = false ∧
    (UHD_SAFE_MAIN (withResolution (1 / 1000)) lockedDevice =
      UHD_SAFE_MAIN { withResolution (1 / 1000) with resolution := default_resolution }
        lockedDevice ∧
    ∃ rest, (program (withResolution (1 / 1000)) lockedDevice neverStop 1).trace =
      (UHD_SAFE_MAIN (withResolution (1 / 1000)) lockedDevice).trace ++
      Event.retune next_freq ::
        Event.probe start_offset
          (lockedDevice.loLocked
            (UHD_SAFE_MAIN (withResolution (1 / 1000)) lockedDevice).queries) :: rest) :=
  ⟨Or.inr (by decide!), by decide!, rfl,
   C7_resolution_not_validated (withResolution (1 / 1000)) lockedDevice neverStop
    (Or.inr (by decide!)) (by decide!) rfl⟩

/-- C8, as stated, fails: on a device without any sensor the default run is
not stopped before the loop; the first iteration begins and schedules the
retune before the first `lo_locked` call is made (and raises). -/
theorem C8_counterexample :
    "lo_locked" ∉ bareDevice.rxSensorNames ∧
    (UHD_SAFE_MAIN defaultConfig bareDevice).pc = Pc.top ∧
    (program defaultConfig bareDevice neverStop 1).checks = 1 ∧
    (program defaultConfig bareDevice neverStop 1).trace =
      [Event.retune next_freq, Event.probe start_offset none] := by
  refine ⟨by decide, by decide!, by decide!, by decide!⟩

/-- C8, amended: when the RX sensor list does not contain "lo_locked", the
initial check is skipped: no `lo_locked` call is made before the loop and no
failure is raised for the missing sensor. Unless help is requested or a
motherboard lock assertion fails, the loop is entered, and when the stop flag
is not set the first iteration schedules the retune before the first
`lo_locked` call is made. -/
theorem C8_missing_sensor_enters_loop (cfg : Config) (dev : Device) (stop : Nat → Bool)
    (hno : "lo_locked" ∉ dev.rxSensorNames) (hhelp : cfg.help = false)
    (hmimo : cfg.ref = "mimo" → "mimo_locked" ∈ dev.mboardSensorNames → dev.mimoLocked = true)
    (href : cfg.ref = "external" → "ref_locked" ∈ dev.mboardSensorNames → dev.refLocked = true)
    (hstop : stop 0 = false) :
    (UHD_SAFE_MAIN cfg dev).pc = Pc.top ∧ (UHD_SAFE_MAIN cfg dev).queries = 0 ∧
    ∃ rest, (program cfg dev stop 1).trace = (UHD_SAFE_MAIN cfg dev).trace ++
      Event.retune next_freq :: Event.probe start_offset (dev.loLocked 0) :: rest := by
  have hq : (UHD_SAFE_MAIN cfg dev).pc = Pc.top ∧ (UHD_SAFE_MAIN cfg dev).queries = 0 := by
    unfold UHD_SAFE_MAIN
    simp only [hno, hhelp, loopEntry]
    split_ifs <;> simp_all
  obtain ⟨rest, h⟩ := program_first_step cfg dev stop hq.1 hstop
  rw [hq.2] at h
  exact ⟨hq.1, hq.2, rest, h⟩

/-- The default run on a device without sensors meets the conditions of
`C8_missing_sensor_enters_loop`. -/
theorem C8_missing_sensor_enters_loop_witness :
    ("lo_locked" ∉ bareDevice.rxSensorNames ∧ defaultConfig.help = false ∧
      neverStop 0 = false) ∧
    ((UHD_SAFE_MAIN defaultConfig bareDevice).pc = Pc.top ∧
      (UHD_SAFE_MAIN defaultConfig bareDevice).queries = 0 ∧
    ∃ rest, (program defaultConfig bareDevice neverStop 1).trace =
      (UHD_SAFE_MAIN defaultConfig bareDevice).trace ++
      Event.retune next_freq :: Event.probe start_offset (bareDevice.loLocked 0) :: rest) :=
  ⟨⟨by decide, rfl, rfl⟩,
   C8_missing_sensor_enters_loop defaultConfig bareDevice neverStop (by decide) rfl
    (fun _ => by decide) (fun _ => by decide) rfl⟩

/-- C9: when the stop flag is read as set at the head of the loop, the
program state from the next step on is the state at that head with only the
flag reading counted, the line "Done!" printed and the program stopped by the
`break`: `offset` is not decremented, no `lo_locked` call is made, and no
retune or reset is issued. The exit code is `EXIT_SUCCESS`. The flag is read
once by each step from the loop head and by no other step. -/
theorem C9_stop_observed (env : Env) (s : Dbl) (q : Nat) (tr : List Event) (m : Nat)
    (hpc : (run env m (loopEntry s q tr)).pc = Pc.top)
    (hs : env.stop (run env m (loopEntry s q tr)).checks = true) :
    (∀ n, run env (m + (n + 1)) (loopEntry s q tr) =
      { run env m (loopEntry s q tr) with
        checks := (run env m (loopEntry s q tr)).checks + 1
        trace := (run env m (loopEntry s q tr)).trace ++ [Event.done]
        pc := Pc.exited Exit.stopped }) ∧
    exitCode Exit.stopped = some 0 ∧
    (∀ st : State, st.pc = Pc.top → st.lock = true → (step env st).checks = st.checks + 1) ∧
    (∀ st : State, st.pc ≠ Pc.top → (step env st).checks = st.checks) := by
  have hl := (run_sound env m _ (loopEntry_sound s q tr)).1 hpc
  refine ⟨fun n => ?_, rfl, fun st => (step_checks env st).1, fun st => (step_checks env st).2⟩
  have hrun : run env (m + (n + 1)) (loopEntry s q tr)
      = run env n (step env (run env m (loopEntry s q tr))) := by
    rw [run_add]; rfl
  rw [hrun, step_top_stop env _ hpc hl hs]
  exact run_exited env n _ Exit.stopped rfl

/-- A run whose stop flag is set before the first iteration meets the
conditions of `C9_stop_observed`. -/
theorem C9_stop_observed_witness :
    ((run { cfg := defaultConfig, dev := lockedDevice, stop := alwaysStop } 0
        (loopEntry start_offset 1 [])).pc = Pc.top ∧
      alwaysStop (run { cfg := defaultConfig, dev := lockedDevice, stop := alwaysStop } 0
        (loopEntry start_offset 1 [])).checks = true) ∧
    ((∀ n, run { cfg := defaultConfig, dev := lockedDevice, stop := alwaysStop } (0 + (n + 1))
        (loopEntry start_offset 1 []) =
      { run { cfg := defaultConfig, dev := lockedDevice, stop := alwaysStop } 0
          (loopEntry start_offset 1 []) with
        checks := (run { cfg := defaultConfig, dev := lockedDevice, stop := alwaysStop } 0
          (loopEntry start_offset 1 [])).checks + 1
        trace := (run { cfg := defaultConfig, dev := lockedDevice, stop := alwaysStop } 0
          (loopEntry start_offset 1 [])).trace ++ [Event.done]
        pc := Pc.exited Exit.stopped }) ∧
    exitCode Exit.stopped = some 0 ∧
    (∀ st : State, st.pc = Pc.top → st.lock = true →
      (step { cfg := defaultConfig, dev := lockedDevice, stop := alwaysStop } st).checks
        = st.checks + 1) ∧
    (∀ st : State, st.pc ≠ Pc.top →
      (step { cfg := defaultConfig, dev := lockedDevice, stop := alwaysStop } st).checks
        = st.checks)) :=
  ⟨⟨rfl, rfl⟩,
   C9_stop_observed { cfg := defaultConfig, dev := lockedDevice, stop := alwaysStop }
    start_offset 1 [] 0 rfl rfl⟩

/-- C10: for every start offset, resolution, device and stop flag: a step that
leaves the settle loop for the report test starts with `lock = true` and prints
no "took" line; at every point of every run, from any loop entry and of the
whole program, no "took" line has been printed by the loop, `lock` is `true`
at the head of `while (lock)`, and the loop has not been left through that
condition. -/
theorem C10_report_never_printed (env : Env) (s : Dbl) (q : Nat) (tr : List Event)
    (cfg : Config) (dev : Device) (stop : Nat → Bool) (n : Nat) :
    (∀ st : State, st.pc = Pc.settle →
      ((step env st).pc = Pc.top ∨ (step env st).pc = Pc.exited Exit.underflow) →
      st.lock = true ∧ step env st = reportPhase env st ∧
      tookValues (reportPhase env st).trace = tookValues st.trace) ∧
    (tookValues (run env n (loopEntry s q tr)).trace = tookValues tr ∧
      ((run env n (loopEntry s q tr)).pc = Pc.top → (run env n (loopEntry s q tr)).lock = true) ∧
      (run env n (loopEntry s q tr)).pc ≠ Pc.exited Exit.loopCond) ∧
    (tookValues (program cfg dev stop n).trace = [] ∧
      ((program cfg dev stop n).pc = Pc.top → (program cfg dev stop n).lock = true) ∧
      (program cfg dev stop n).pc ≠ Pc.exited Exit.loopCond) := by
  refine ⟨?_, ⟨run_tookValues env n _, run_sound env n _ (loopEntry_sound s q tr)⟩, ?_⟩
  · intro st hpc hnext
    cases hl : st.lock with
    | true =>
      have h := step_settle_locked env st hpc hl
      refine ⟨rfl, h, ?_⟩
      rw [← h]
      exact step_tookValues env st
    | false =>
      exfalso
      cases hq : env.dev.loLocked st.queries with
      | none =>
        rw [step_settle_none env st hpc hl hq] at hnext
        simp at hnext
      | some b =>
        rw [step_settle_some env st b hpc hl hq] at hnext
        simp [hpc] at hnext
  · unfold program
    refine ⟨?_, run_sound _ n _ (main_sound cfg dev)⟩
    rw [run_tookValues]
    exact (main_fields cfg dev).2.2.2.1


end LoTuneBenchmarking
